import Mathlib

/-!
# barebones-http-go: wire parser, router, encoding manager and connection loop

A shallow embedding of the Go package `server` (files `server/http.go`,
`server/server.go`, `server/encoding.go`) and of the route table of `main.go`.

Conventions of the embedding.

* Go `string` and `[]byte` values are byte sequences: `Bytes = List UInt8`.
* A Go `map[string]string` is a `GoMap`: `none` is the nil map, `some es` an
  initialised map whose entries `es` carry pairwise distinct keys.
* The order of a Go `range` over a map is a `RangeOrder`: a parameter that
  visits every entry once.
* A Go run-time panic is the explicit result `Exec.panic`.
* Library code that is not part of the repository and cannot be written out
  in full (the Unicode case tables behind `strings.ToLower`, the gzip
  compressor, `regexp.Compile`, the file system reached by the handlers of
  `main.go`) is taken as a parameter.
* Loops that consume their input are bounded by a fuel argument equal to the
  length of that input; the lemmas `trimLeftSpace_fuel`, `trimRightSpace_fuel`,
  `readHeaders_fuel`, `replacePlaceholders_fuel` and `parseNodes_fuel` show
  that more fuel never changes a result.
-/

namespace BarebonesHttp

/-! ## Bytes and Go maps -/

/-- Byte sequences: the Go types string and []byte. -/
abbrev Bytes := List UInt8

/-- The UTF-8 bytes of a literal, as Go stores a string constant. -/
def bytes (s : String) : Bytes := s.data.flatMap String.utf8EncodeChar

/-- The byte of an ASCII character constant such as ':' in the Go source. -/
def byte (c : Char) : UInt8 := c.toNat.toUInt8

/-- Result of a computation that either finishes with a value or panics. -/
inductive Exec (α : Type) where
  | done (a : α)
  | panic
  deriving Repr, DecidableEq

deriving instance DecidableEq for Except

/-- Entries of an initialised Go map, keys pairwise distinct. -/
abbrev Entries := List (Bytes × Bytes)

/-- Go `m[k] = v` on an initialised map: overwrite the entry or add one. -/
def Entries.insert : Entries → Bytes → Bytes → Entries
  | [], k, v => [(k, v)]
  | (k', v') :: es, k, v =>
    if k' = k then (k, v) :: es else (k', v') :: Entries.insert es k v

/-- Go `v, ok := m[k]` on an initialised map. -/
def Entries.lookup : Entries → Bytes → Option Bytes
  | [], _ => none
  | (k', v') :: es, k => if k' = k then some v' else Entries.lookup es k

/-- A Go map[string]string; none is the nil map. -/
abbrev GoMap := Option Entries

/-- Go `v, ok := m[k]`; reading a nil map finds nothing. -/
def GoMap.lookup (m : GoMap) (k : Bytes) : Option Bytes :=
  match m with
  | none => none
  | some es => es.lookup k

/-- Go `m[k]` as an expression: the zero value "" when the key is absent. -/
def GoMap.get (m : GoMap) (k : Bytes) : Bytes := (m.lookup k).getD []

/-- Go `m[k] = v`: panics ("assignment to entry in nil map") on the nil map. -/
def GoMap.set (m : GoMap) (k v : Bytes) : Exec GoMap :=
  match m with
  | none => .panic
  | some es => .done (some (es.insert k v))

/-- The keys of a map. -/
def GoMap.keys (m : GoMap) : List Bytes :=
  match m with
  | none => []
  | some es => es.map Prod.fst

/-- The order in which a Go `range` over a map visits the entries: not
specified by the language, but every entry is visited exactly once. -/
structure RangeOrder where
  visit : Entries → Entries
  perm : ∀ es, (visit es).Perm es

/-- Go `for key, value := range m`: the entries in the order of the visit;
a nil map has none. -/
def GoMap.range (order : RangeOrder) (m : GoMap) : Entries :=
  match m with
  | none => []
  | some es => order.visit es

/-- The range order that visits the entries as they are stored. -/
def storedOrder : RangeOrder := { visit := fun es => es, perm := fun es => List.Perm.refl es }

/-! ## The functions of package `strings` and `strconv` used by the server -/

/-- UTF-8 encodings of the runes for which Go's unicode.IsSpace holds. -/
def spaceRunes : List Bytes :=
  [[0x09], [0x0A], [0x0B], [0x0C], [0x0D], [0x20],
   [0xC2, 0x85], [0xC2, 0xA0], [0xE1, 0x9A, 0x80],
   [0xE2, 0x80, 0x80], [0xE2, 0x80, 0x81], [0xE2, 0x80, 0x82], [0xE2, 0x80, 0x83],
   [0xE2, 0x80, 0x84], [0xE2, 0x80, 0x85], [0xE2, 0x80, 0x86], [0xE2, 0x80, 0x87],
   [0xE2, 0x80, 0x88], [0xE2, 0x80, 0x89], [0xE2, 0x80, 0x8A],
   [0xE2, 0x80, 0xA8], [0xE2, 0x80, 0xA9], [0xE2, 0x80, 0xAF],
   [0xE2, 0x81, 0x9F], [0xE3, 0x80, 0x80]]

/-- Width in bytes of the white-space rune that starts `s`; 0 when there is none. -/
def leadingSpace (s : Bytes) : Nat :=
  match spaceRunes.find? (fun r => r.isPrefixOf s) with
  | some r => r.length
  | none => 0

/-- Width in bytes of the white-space rune that ends `s`; 0 when there is none. -/
def trailingSpace (s : Bytes) : Nat :=
  match spaceRunes.find? (fun r => r.reverse.isPrefixOf s.reverse) with
  | some r => r.length
  | none => 0

/-- Go strings.TrimLeftFunc(s, unicode.IsSpace); `fuel` bounds the number of runes removed. -/
def trimLeftSpace : Nat → Bytes → Bytes
  | 0, s => s
  | fuel + 1, s =>
    match leadingSpace s with
    | 0 => s
    | w + 1 => trimLeftSpace fuel (s.drop (w + 1))

/-- Go strings.TrimRightFunc(s, unicode.IsSpace); `fuel` bounds the number of runes removed. -/
def trimRightSpace : Nat → Bytes → Bytes
  | 0, s => s
  | fuel + 1, s =>
    match trailingSpace s with
    | 0 => s
    | w + 1 => trimRightSpace fuel (s.take (s.length - (w + 1)))

/-- Go strings.TrimSpace: strip leading and trailing Unicode white space. -/
def TrimSpace (s : Bytes) : Bytes :=
  let t := trimLeftSpace s.length s
  trimRightSpace t.length t

/-- Go strings.Split(s, sep) for a one-byte separator: never the empty list. -/
def Split (sep : UInt8) : Bytes → List Bytes
  | [] => [[]]
  | b :: bs =>
    if b = sep then [] :: Split sep bs
    else
      match Split sep bs with
      | [] => [[b]]
      | p :: ps => (b :: p) :: ps

/-- Lower-case one ASCII byte. -/
def asciiLower (b : UInt8) : UInt8 :=
  if byte 'A' ≤ b ∧ b ≤ byte 'Z' then b + 32 else b

/-- Go strings.ToLower. A string with only ASCII bytes is lower-cased byte by
byte; any other string goes through `unicodeLower`, which stands for
`strings.Map(unicode.ToLower, s)` and its Unicode tables. -/
def ToLower (unicodeLower : Bytes → Bytes) (s : Bytes) : Bytes :=
  if s.all (fun b => b < 0x80) then s.map asciiLower else unicodeLower s

/-- Go strings.HasSuffix(s, "/")-style test for a one-byte suffix. -/
def HasSuffix (s : Bytes) (b : UInt8) : Bool := s.getLast? == some b

/-- Go strings.Contains(s, "?")-style test for a one-byte needle. -/
def Contains (s : Bytes) (b : UInt8) : Bool := s.contains b

/-- Decimal digits of a byte string as a number, none on a non-digit. -/
def parseDigits : Bytes → Nat → Option Nat
  | [], acc => some acc
  | b :: bs, acc =>
    if byte '0' ≤ b ∧ b ≤ byte '9' then parseDigits bs (acc * 10 + (b.toNat - 48)) else none

/-- Go strconv.Atoi with a 64-bit int: an optional sign and one or more decimal
digits, with a value in the int64 range; none stands for the returned error. -/
def Atoi (s : Bytes) : Option Int :=
  let signed : Bool × Bytes :=
    match s with
    | b :: bs => if b = byte '-' then (true, bs) else if b = byte '+' then (false, bs) else (false, s)
    | [] => (false, [])
  match signed.2 with
  | [] => none
  | ds =>
    match parseDigits ds 0 with
    | none => none
    | some n =>
      if signed.1 then (if n ≤ 2 ^ 63 then some (-(n : Int)) else none)
      else (if n < 2 ^ 63 then some (n : Int) else none)

/-! ## `server/http.go`: requests, responses and the wire parser -/

/-- Go struct Request. -/
structure Request where
  Method : Bytes
  URI : Bytes
  Version : Bytes
  Headers : GoMap
  Params : GoMap
  Body : Bytes
  deriving Repr, DecidableEq

/-- Go struct Response. -/
structure Response where
  StatusCode : Int
  StatusMsg : Bytes
  ContentType : Bytes
  ContentLength : Int
  Headers : GoMap
  Body : Bytes
  deriving Repr, DecidableEq

/-- Go statusText: the reason phrase of a status code. -/
def statusText (code : Int) : Bytes :=
  if code = 200 then bytes "OK"
  else if code = 201 then bytes "Created"
  else if code = 204 then bytes "No Content"
  else if code = 400 then bytes "Bad Request"
  else if code = 401 then bytes "Unauthorized"
  else if code = 403 then bytes "Forbidden"
  else if code = 404 then bytes "Not Found"
  else if code = 405 then bytes "Method Not Allowed"
  else if code = 500 then bytes "Internal Server Error"
  else bytes "Unknown"

/-- Go NewResponse: the headers map is initialised and empty. -/
def NewResponse (statusCode : Int) (statusMsg contentType body : Bytes) : Response :=
  { StatusCode := statusCode
    StatusMsg := statusMsg
    ContentType := contentType
    ContentLength := (body.length : Int)
    Headers := some []
    Body := body }

/-- Go TextResponse. -/
def TextResponse (status : Int) (body : Bytes) : Response :=
  NewResponse status (statusText status) (bytes "text/plain") body

/-- Go FileResponse. -/
def FileResponse (status : Int) (data : Bytes) : Response :=
  NewResponse status (statusText status) (bytes "application/octet-stream") data

/-- Go fmt verb %d for an int: decimal digits, with a leading '-' below zero. -/
def formatInt (n : Int) : Bytes := bytes (toString n)

/-- Go Response.String: the writes into the buffer, one after the other. -/
def Response.String (order : RangeOrder) (r : Response) : Bytes :=
  let buf : Bytes := []
  let buf := buf ++ (bytes "HTTP/1.1 " ++ formatInt r.StatusCode ++ bytes " " ++ r.StatusMsg ++
    bytes "\r\n")
  let buf :=
    if r.ContentType ≠ [] then buf ++ (bytes "Content-Type: " ++ r.ContentType ++ bytes "\r\n")
    else buf
  let buf := buf ++ (bytes "Content-Length: " ++ formatInt r.ContentLength ++ bytes "\r\n")
  let buf := (r.Headers.range order).foldl
    (fun buf kv => buf ++ (kv.1 ++ bytes ": " ++ kv.2 ++ bytes "\r\n")) buf
  let buf := buf ++ bytes "\r\n"
  buf ++ r.Body

/-- How the byte stream of a connection ends: io.EOF (the peer closed), or
any other read error of the network connection. -/
inductive ReadErr where
  | eof
  | other
  deriving Repr, DecidableEq

/-- What one bufio.Reader wrapped around the connection can read: the bytes
that arrive, then the error that ends the stream. -/
structure Conn where
  data : Bytes
  ending : ReadErr
  deriving Repr, DecidableEq

/-- The errors parseRequest returns; `eof` is io.EOF itself, every other
constructor is one of the fmt.Errorf values of the function. -/
inductive ParseError where
  | eof
  | readingRequestLine (cause : ReadErr)
  | invalidRequestLine (requestLine : Bytes)
  | readingHeader (cause : ReadErr)
  | invalidContentLength
  | readingBody
  deriving Repr, DecidableEq

/-- Go bufio.Reader.ReadString(delim) on the unread bytes: the line up to and
including the delimiter and the bytes left unread; none when the stream ends
before a delimiter (ReadString then returns the stream's error). -/
def readString (delim : UInt8) : Bytes → Option (Bytes × Bytes)
  | [] => none
  | b :: bs =>
    if b = delim then some ([b], bs)
    else
      match readString delim bs with
      | none => none
      | some (line, rest) => some (b :: line, rest)

/-- Largest allocation the Go runtime accepts (64-bit Linux): make([]byte, n)
panics with "makeslice: len out of range" above it. An allocation up to
this size is taken to succeed. -/
def maxAlloc : Nat := 2 ^ 48

/-- The header loop of parseRequest (http.go lines 105-123). Every iteration
reads one terminated line, so `fuel`, the number of unread bytes at the start,
is never exhausted before the stream is. Returns the headers and the unread
bytes after the empty line. -/
def readHeaders (unicodeLower : Bytes → Bytes) (ending : ReadErr) :
    Nat → Bytes → Entries → Exec (Except ParseError (Entries × Bytes))
  | 0, _, _ => .done (.error (.readingHeader ending))
  | fuel + 1, unread, headers =>
    match readString (byte '\n') unread with
    | none => .done (.error (.readingHeader ending))
    | some (line, rest) =>
      let line := TrimSpace line
      if line = [] then .done (.ok (headers, rest))
      else
        match Split (byte ':') line with
        | h0 :: h1 :: _ =>
          let key := ToLower unicodeLower (TrimSpace h0)
          let value := TrimSpace h1
          readHeaders unicodeLower ending fuel rest (headers.insert key value)
        | _ => .panic

/-- The body stage of parseRequest (http.go lines 126-139). -/
def readBody (headers : Entries) (unread : Bytes) : Exec (Except ParseError Bytes) :=
  match headers.lookup (bytes "content-length") with
  | none => .done (.ok [])
  | some contentLenStr =>
    match Atoi contentLenStr with
    | none => .done (.error .invalidContentLength)
    | some contentLen =>
      if contentLen > 0 then
        if contentLen.toNat > maxAlloc then .panic
        else if contentLen.toNat ≤ unread.length then .done (.ok (unread.take contentLen.toNat))
        else .done (.error .readingBody)
      else .done (.ok [])

/-- Go parseRequest: one request read through a fresh bufio.Reader. -/
def parseRequest (unicodeLower : Bytes → Bytes) (conn : Conn) :
    Exec (Except ParseError Request) :=
  match readString (byte '\n') conn.data with
  | none =>
    match conn.ending with
    | .eof => .done (.error .eof)
    | .other => .done (.error (.readingRequestLine .other))
  | some (requestLine, rest) =>
    match Split (byte ' ') (TrimSpace requestLine) with
    | [method, uri, version] =>
      let uri := if !HasSuffix uri (byte '/') && !Contains uri (byte '?') then uri ++ [byte '/'] else uri
      match readHeaders unicodeLower conn.ending rest.length rest [] with
      | .panic => .panic
      | .done (.error e) => .done (.error e)
      | .done (.ok (headers, unread)) =>
        match readBody headers unread with
        | .panic => .panic
        | .done (.error e) => .done (.error e)
        | .done (.ok body) =>
          .done (.ok
            { Method := method
              URI := uri
              Version := version
              Headers := some headers
              Params := some []
              Body := body })
    | _ => .done (.error (.invalidRequestLine requestLine))

/-! ## `server/encoding.go`: the encoding manager -/

/-- A Go error value, identified by its message. -/
abbrev Error := Bytes

/-- Go interface Encoder. -/
structure Encoder where
  Encode : Bytes → Except Error Bytes
  ContentEncoding : Bytes

/-- Go GzipEncoder. The compressor `gzip` of compress/gzip writes into a
bytes.Buffer, whose writes never fail, so Encode always succeeds. -/
def GzipEncoder (gzip : Bytes → Bytes) : Encoder :=
  { Encode := fun body => .ok (gzip body)
    ContentEncoding := bytes "gzip" }

/-- Go struct EncodeManager: the map from encoder name to encoder. -/
structure EncodeManager where
  encoders : List (Bytes × Encoder)

/-- Go `manager.encoders[name] = encoder`. -/
def insertEncoder : List (Bytes × Encoder) → Bytes → Encoder → List (Bytes × Encoder)
  | [], k, v => [(k, v)]
  | (k', v') :: es, k, v =>
    if k' = k then (k, v) :: es else (k', v') :: insertEncoder es k v

/-- Go `encoding, ok := manager.encoders[name]`. -/
def lookupEncoder : List (Bytes × Encoder) → Bytes → Option Encoder
  | [], _ => none
  | (k', v') :: es, k => if k' = k then some v' else lookupEncoder es k

/-- Go EncodeManager.RegisterEncoder. -/
def EncodeManager.RegisterEncoder (manager : EncodeManager) (name : Bytes) (encoder : Encoder) :
    EncodeManager :=
  { encoders := insertEncoder manager.encoders name encoder }

/-- Go NewEncodeManager: gzip is registered from the start. -/
def NewEncodeManager (gzip : Bytes → Bytes) : EncodeManager :=
  EncodeManager.RegisterEncoder { encoders := [] } (bytes "gzip") (GzipEncoder gzip)

/-- The range loop of GetEncoding over the comma-separated candidates. -/
def firstEncoder (encoders : List (Bytes × Encoder)) : List Bytes → Option Encoder
  | [] => none
  | encoding :: more =>
    match lookupEncoder encoders (TrimSpace encoding) with
    | some encoder => some encoder
    | none => firstEncoder encoders more

/-- Go EncodeManager.GetEncoding; none is the nil Encoder. -/
def EncodeManager.GetEncoding (manager : EncodeManager) (acceptEncoding : Bytes) : Option Encoder :=
  if acceptEncoding = [] then none
  else firstEncoder manager.encoders (Split (byte ',') acceptEncoding)

/-- Go EncodeManager.ApplyEncoding: the response after the call and the
returned error. The write to res.Headers panics on a nil map. -/
def EncodeManager.ApplyEncoding (manager : EncodeManager) (req : Request) (res : Response) :
    Exec (Response × Option Error) :=
  if res.Body.length = 0 then .done (res, none)
  else
    let acceptEncodingHeader := req.Headers.get (bytes "accept-encoding")
    match manager.GetEncoding acceptEncodingHeader with
    | none => .done (res, none)
    | some encoder =>
      match encoder.Encode res.Body with
      | .error err => .done (res, some err)
      | .ok encodedBody =>
        match res.Headers.set (bytes "Content-Encoding") encoder.ContentEncoding with
        | .panic => .panic
        | .done headers =>
          .done ({ res with
                    Body := encodedBody
                    ContentLength := (encodedBody.length : Int)
                    Headers := headers }, none)

/-! ## Go's `regexp` package as the router uses it

The router reaches a compiled pattern through two methods only, so a
`Regexp` is what these two methods return. `regexp.Compile` itself is a
parameter of RegisterEndpoint. For the statements that need a concrete
pattern, `regexpCompile` models Compile on a fragment of the syntax:
RegisterEndpoint compiles `"^" + template' + "$"`, where `template'` is the
path template with every placeholder replaced by `(?P<name>\w+)`, and the
fragment covers the patterns made of ASCII bytes that are not regexp
metacharacters (literals), `.`, `^`, `$` and named groups of the exact form
`(?P<name>\w+)`.
-/

/-- A compiled Go *regexp.Regexp. `groupNames` lists the names of its capture
groups in order ("" for an unnamed group). `find s` is the leftmost match in
`s`, none when there is none: the matched text and, by group index from 0,
the text each group captured ("" for a group that took no part). -/
structure Regexp where
  groupNames : List Bytes
  find : Bytes → Option (Bytes × (Nat → Bytes))

/-- Go Regexp.FindStringSubmatch: the matched text followed by the text of
every capture group; none (nil) when there is no match. -/
def Regexp.FindStringSubmatch (re : Regexp) (s : Bytes) : Option (List Bytes) :=
  match re.find s with
  | none => none
  | some (whole, captured) => some (whole :: (List.range re.groupNames.length).map captured)

/-- Go Regexp.SubexpNames: names[0] is always the empty string. -/
def Regexp.SubexpNames (re : Regexp) : List Bytes :=
  [] :: re.groupNames

/-- Go regexp class \w: the bytes of [0-9A-Za-z_]. -/
def isWordByte (b : UInt8) : Bool :=
  (byte '0' ≤ b && b ≤ byte '9') || (byte 'A' ≤ b && b ≤ byte 'Z') ||
    (byte 'a' ≤ b && b ≤ byte 'z') || b == byte '_'

/-- A continuation byte of UTF-8. -/
def isCont (b : UInt8) : Bool := 0x80 ≤ b && b ≤ 0xBF

/-- Go utf8.DecodeRuneInString, second result: the width of the first rune of
a non-empty string; an invalid or truncated encoding has width 1. -/
def runeWidth : Bytes → Nat
  | [] => 0
  | [_] => 1
  | b0 :: b1 :: rest =>
    if 0xC2 ≤ b0 && b0 ≤ 0xDF then (if isCont b1 then 2 else 1)
    else
      let lo : UInt8 := if b0 = 0xE0 then 0xA0 else if b0 = 0xF0 then 0x90 else 0x80
      let hi : UInt8 := if b0 = 0xED then 0x9F else if b0 = 0xF4 then 0x8F else 0xBF
      if 0xE0 ≤ b0 && b0 ≤ 0xEF then
        match rest with
        | b2 :: _ => if lo ≤ b1 && b1 ≤ hi && isCont b2 then 3 else 1
        | [] => 1
      else if 0xF0 ≤ b0 && b0 ≤ 0xF4 then
        match rest with
        | b2 :: b3 :: _ => if lo ≤ b1 && b1 ≤ hi && isCont b2 && isCont b3 then 4 else 1
        | _ => 1
      else 1

/-- One element of a compiled pattern of the fragment. -/
inductive Node where
  | lit (b : UInt8)
  | anyNotNL
  | beginText
  | endText
  | wordGroup (name : Bytes)
  deriving Repr, DecidableEq

/-- The bytes with a meaning of their own in Go regexp syntax. -/
def isMeta (b : UInt8) : Bool :=
  (bytes "\\.+*?()|[]{}^$").contains b

/-- Split "(?P<name>\\w+)..." after its opening parenthesis into the group
name and the pattern text that follows the group. -/
def parseGroup (afterParen : Bytes) : Option (Bytes × Bytes) :=
  if (bytes "?P<").isPrefixOf afterParen then
    let t := afterParen.drop 3
    let name := t.takeWhile isWordByte
    let t := t.drop name.length
    if name ≠ [] && (bytes ">\\w+)").isPrefixOf t then some (name, t.drop 5) else none
  else none

/-- Parse the pattern text into nodes; none when the text leaves the fragment.
Each step consumes at least one byte, so fuel `length + 1` is never exhausted. -/
def parseNodes : Nat → Bytes → Option (List Node)
  | 0, _ => none
  | _ + 1, [] => some []
  | fuel + 1, b :: rest =>
    if b = byte '(' then
      match parseGroup rest with
      | none => none
      | some (name, rest) => (parseNodes fuel rest).map (fun ns => Node.wordGroup name :: ns)
    else
      let node : Option Node :=
        if b = byte '^' then some Node.beginText
        else if b = byte '$' then some Node.endText
        else if b = byte '.' then some Node.anyNotNL
        else if isMeta b || 0x80 ≤ b then none
        else some (Node.lit b)
      match node with
      | none => none
      | some n => (parseNodes fuel rest).map (fun ns => n :: ns)


/-- The first success of `f k` for k = n, n-1, ..., 1: the order in which a
greedy repetition gives back what it has taken. -/
def longestFirst {β : Type} (f : Nat → Option β) : Nat → Option β
  | 0 => none
  | k + 1 =>
    match f (k + 1) with
    | some r => some r
    | none => longestFirst f k

/-- Leftmost-first matching of the nodes against the text `s` found at byte
offset `pos`: the offset where the match ends and the text of each group. -/
def matchNodes : List Node → Nat → Bytes → Option (Nat × List Bytes)
  | [], pos, _ => some (pos, [])
  | Node.lit c :: ns, pos, s =>
    match s with
    | b :: bs => if b = c then matchNodes ns (pos + 1) bs else none
    | [] => none
  | Node.anyNotNL :: ns, pos, s =>
    match s with
    | b :: _ => if b = byte '\n' then none else matchNodes ns (pos + runeWidth s) (s.drop (runeWidth s))
    | [] => none
  | Node.beginText :: ns, pos, s => if pos = 0 then matchNodes ns pos s else none
  | Node.endText :: ns, pos, s => if s = [] then matchNodes ns pos s else none
  | Node.wordGroup _ :: ns, pos, s =>
    longestFirst
      (fun k =>
        match matchNodes ns (pos + k) (s.drop k) with
        | some (stop, groups) => some (stop, s.take k :: groups)
        | none => none)
      (s.takeWhile isWordByte).length

/-- The name of a node that is a group. -/
def Node.groupName : Node → Option Bytes
  | Node.wordGroup name => some name
  | _ => none

/-- The compiled pattern with the given nodes, the first of which is
beginText: a match can only start at offset 0. -/
def Regexp.ofNodes (nodes : List Node) : Regexp :=
  { groupNames := nodes.filterMap Node.groupName
    find := fun s =>
      match matchNodes nodes 0 s with
      | some (stop, groups) => some (s.take stop, fun i => groups.getD i [])
      | none => none }

/-- Go regexp.Compile on the fragment: none when Compile returns an error or
the pattern is not covered by the model. -/
def regexpCompile (expr : Bytes) : Option Regexp :=
  match parseNodes (expr.length + 1) expr with
  | some (Node.beginText :: ns) => some (Regexp.ofNodes (Node.beginText :: ns))
  | _ => none

/-- Go `regexp.MustCompile("\\{(\\w+)\\}").ReplaceAllString(path, "(?P<$1>\\w+)")`:
every brace-enclosed run of one or more word bytes becomes a named group.
Each step consumes at least one byte, so fuel `length` is never exhausted. -/
def replacePlaceholders : Nat → Bytes → Bytes
  | 0, s => s
  | _ + 1, [] => []
  | fuel + 1, b :: rest =>
    let name := rest.takeWhile isWordByte
    if b = byte '{' && name ≠ [] && (rest.drop name.length).head? = some (byte '}') then
      bytes "(?P<" ++ name ++ bytes ">\\w+)" ++ replacePlaceholders fuel (rest.drop (name.length + 1))
    else b :: replacePlaceholders fuel rest

/-! ## `server/server.go`: router and connection loop -/

/-- Go type Handler. -/
abbrev Handler := Request → Response

/-- Go struct route. -/
structure route where
  method : Bytes
  pattern : Regexp
  handler : Handler

/-- Go struct Router. -/
structure Router where
  routes : List route
  notFound : Handler

/-- Go struct Server. -/
structure Server where
  TmpDir : Bytes
  Address : Bytes
  EncodingManager : EncodeManager
  Router : Router
  SupportedEncoding : Bytes

/-- Go NewRouter: the fallback handler builds its Response with a struct
literal, so its Headers map and Body stay nil. -/
def NewRouter : Router :=
  { routes := []
    notFound := fun _ =>
      { StatusCode := 404
        StatusMsg := statusText 404
        ContentType := []
        ContentLength := 0
        Headers := none
        Body := [] } }

/-- Go NewServer. -/
def NewServer (gzip : Bytes → Bytes) (address tmpDir supportedEncoding : Bytes) : Server :=
  { TmpDir := tmpDir
    Address := address
    EncodingManager := NewEncodeManager gzip
    Router := NewRouter
    SupportedEncoding := supportedEncoding }

/-- The inner loop of Match (server.go lines 74-76), from index `i` on:
`req.Params[varName] = matches[i]` for every name; an index outside
`matches` and a write to a nil map panic. -/
def setParams (submatch : List Bytes) : List Bytes → Nat → GoMap → Exec GoMap
  | [], _, params => .done params
  | varName :: more, i, params =>
    match submatch.get? i with
    | none => .panic
    | some m =>
      match params.set varName m with
      | .panic => .panic
      | .done params => setParams submatch more (i + 1) params

/-- The loop of Match over the routes: the handler chosen and the request
with its Params as Match leaves them. -/
def matchRoutes (notFound : Handler) (req : Request) : List route → Exec (Handler × Request)
  | [] => .done (notFound, req)
  | rt :: more =>
    if req.Method ≠ rt.method then matchRoutes notFound req more
    else
      match rt.pattern.FindStringSubmatch req.URI with
      | none => matchRoutes notFound req more
      | some submatch =>
        match setParams submatch rt.pattern.SubexpNames 0 req.Params with
        | .panic => .panic
        | .done params => .done (rt.handler, { req with Params := params })

/-- Go Router.Match. -/
def Router.Match (r : Router) (req : Request) : Exec (Handler × Request) :=
  matchRoutes r.notFound req r.routes

/-- Go Server.RegisterEndpoint, with regexp.Compile as the parameter `compile`
(none is its error): none when Compile rejects the pattern and log.Fatalf
ends the process. -/
def Server.RegisterEndpoint (compile : Bytes → Option Regexp) (s : Server) (method path : Bytes)
    (handler : Handler) : Option Server :=
  let regexPath := replacePlaceholders path.length path
  let regexPath := bytes "^" ++ regexPath ++ bytes "$"
  match compile regexPath with
  | none => none
  | some regexCompiled =>
    let newRoute : route := { method := method, pattern := regexCompiled, handler := handler }
    some { s with Router := { s.Router with routes := s.Router.routes ++ [newRoute] } }

/-- A sequence of RegisterEndpoint calls, in order. -/
def Server.registerAll (compile : Bytes → Option Regexp) (s : Server) :
    List (Bytes × Bytes × Handler) → Option Server
  | [] => some s
  | (method, path, handler) :: more =>
    match s.RegisterEndpoint compile method path handler with
    | none => none
    | some s' => Server.registerAll compile s' more

/-- How a run of serveRequest ends: it returns (the deferred conn.Close
runs), or a panic unwinds it. -/
inductive ConnEnd where
  | closed
  | panicked
  deriving Repr, DecidableEq

/-- What serveRequest did on a connection: the responses handed to
writeResponse, in order, and how the run ended. -/
structure Trace where
  written : List Response
  ending : ConnEnd
  deriving Repr, DecidableEq

/-- Result of one pass through the body of the loop of serveRequest. -/
inductive Step where
  | stop (written : List Response) (ending : ConnEnd)
  | next (written : Response)
  deriving Repr, DecidableEq

/-- The response written for a request that does not parse (server.go lines 97-100). -/
def badRequest : Response :=
  { StatusCode := 400
    StatusMsg := statusText 400
    ContentType := []
    ContentLength := 0
    Headers := none
    Body := [] }

/-- The loop body of serveRequest after a successful parse (server.go lines
104-116): Match, handler, ApplyEncoding, connection header, writeResponse. -/
def Server.dispatch (s : Server) (req : Request) : Step :=
  match s.Router.Match req with
  | .panic => .stop [] .panicked
  | .done (handler, req) =>
    let response := handler req
    match s.EncodingManager.ApplyEncoding req response with
    | .panic => .stop [] .panicked
    | .done (response, _) =>
      if req.Headers.get (bytes "connection") = bytes "close" then
        match response.Headers.set (bytes "Connection") (bytes "close") with
        | .panic => .stop [] .panicked
        | .done headers => .stop [{ response with Headers := headers }] .closed
      else .next response

/-- One pass through the loop body of serveRequest (server.go lines 88-116). -/
def Server.iteration (unicodeLower : Bytes → Bytes) (s : Server) (conn : Conn) : Step :=
  match parseRequest unicodeLower conn with
  | .panic => .stop [] .panicked
  | .done (.error .eof) => .stop [] .closed
  | .done (.error _) => .stop [badRequest] .closed
  | .done (.ok req) => s.dispatch req

/-- Go Server.serveRequest. Every pass wraps the connection in a new
bufio.Reader; `conns` lists, pass by pass, what that reader gets to read.
When the list is used up the peer has closed the connection with nothing
more sent, so parseRequest returns io.EOF and the loop returns. -/
def Server.serveRequest (unicodeLower : Bytes → Bytes) (s : Server) : List Conn → Trace
  | [] => { written := [], ending := .closed }
  | conn :: later =>
    match s.iteration unicodeLower conn with
    | .stop written ending => { written := written, ending := ending }
    | .next response =>
      let t := Server.serveRequest unicodeLower s later
      { written := response :: t.written, ending := t.ending }

/-! ## `main.go`: the registered routes -/

/-- The calls of package os and path made by the handlers of main.go. -/
structure FileSystem where
  Join : Bytes → Bytes → Bytes
  ReadFile : Bytes → Option Bytes
  WriteFile : Bytes → Bytes → Bool

/-- Handler of GET "/". -/
def rootHandler : Handler := fun _ => TextResponse 200 []

/-- Handler of GET "/echo/{msg}/". -/
def echoHandler : Handler := fun req =>
  let echoMsg := req.Params.get (bytes "msg")
  TextResponse 200 echoMsg

/-- Handler of GET "/user-agent/". -/
def userAgentHandler : Handler := fun req => TextResponse 200 (req.Headers.get (bytes "user-agent"))

/-- Handler of GET "/files/{fileName}/". -/
def getFileHandler (fs : FileSystem) (tmpDir : Bytes) : Handler := fun req =>
  let fileName := req.Params.get (bytes "fileName")
  match fs.ReadFile (fs.Join tmpDir fileName) with
  | none => TextResponse 404 (bytes "File not found")
  | some data => FileResponse 200 data

/-- Handler of POST "/files/{fileName}/". -/
def postFileHandler (fs : FileSystem) (tmpDir : Bytes) : Handler := fun req =>
  let fileName := req.Params.get (bytes "fileName")
  let absPath := fs.Join tmpDir fileName
  if fs.WriteFile absPath req.Body then TextResponse 201 [] else TextResponse 500 []

/-- The endpoints main registers, in order. -/
def mainEndpoints (fs : FileSystem) (tmpDir : Bytes) : List (Bytes × Bytes × Handler) :=
  [ (bytes "GET", bytes "/", rootHandler),
    (bytes "GET", bytes "/echo/{msg}/", echoHandler),
    (bytes "GET", bytes "/user-agent/", userAgentHandler),
    (bytes "GET", bytes "/files/{fileName}/", getFileHandler fs tmpDir),
    (bytes "POST", bytes "/files/{fileName}/", postFileHandler fs tmpDir) ]

/-- The server main builds before it starts to listen. -/
def mainServer (compile : Bytes → Option Regexp) (gzip : Bytes → Bytes) (fs : FileSystem)
    (addr tmpDir : Bytes) : Option Server :=
  (NewServer gzip addr tmpDir (bytes "gzip")).registerAll compile (mainEndpoints fs tmpDir)

/-! ## Vocabulary of the statements and the concrete inputs used below -/

/-- A route accepts a request when the methods are equal and the pattern
matches the URI: the two tests of the loop of Match. -/
def route.accepts (rt : route) (req : Request) : Prop :=
  req.Method = rt.method ∧ rt.pattern.FindStringSubmatch req.URI ≠ none

/-- The pattern text RegisterEndpoint compiles for a path template. -/
def routePattern (path : Bytes) : Bytes :=
  bytes "^" ++ replacePlaceholders path.length path ++ bytes "$"

/-- The routes of main.go as RegisterEndpoint compiles them with regexpCompile. -/
def mainRoutes (fs : FileSystem) (tmpDir : Bytes) : List route :=
  [ { method := bytes "GET"
      pattern := Regexp.ofNodes ([Node.beginText] ++ (bytes "/").map Node.lit ++ [Node.endText])
      handler := rootHandler },
    { method := bytes "GET"
      pattern := Regexp.ofNodes ([Node.beginText] ++ (bytes "/echo/").map Node.lit ++
        [Node.wordGroup (bytes "msg")] ++ (bytes "/").map Node.lit ++ [Node.endText])
      handler := echoHandler },
    { method := bytes "GET"
      pattern := Regexp.ofNodes ([Node.beginText] ++ (bytes "/user-agent/").map Node.lit ++ [Node.endText])
      handler := userAgentHandler },
    { method := bytes "GET"
      pattern := Regexp.ofNodes ([Node.beginText] ++ (bytes "/files/").map Node.lit ++
        [Node.wordGroup (bytes "fileName")] ++ (bytes "/").map Node.lit ++ [Node.endText])
      handler := getFileHandler fs tmpDir },
    { method := bytes "POST"
      pattern := Regexp.ofNodes ([Node.beginText] ++ (bytes "/files/").map Node.lit ++
        [Node.wordGroup (bytes "fileName")] ++ (bytes "/").map Node.lit ++ [Node.endText])
      handler := postFileHandler fs tmpDir } ]

/-- A file system without files on which every write fails. -/
def noFiles : FileSystem :=
  { Join := fun dir name => dir ++ bytes "/" ++ name
    ReadFile := fun _ => none
    WriteFile := fun _ _ => false }

/-- A request as parseRequest builds it from a request line without headers. -/
def bareRequest (method uri : Bytes) : Request :=
  { Method := method
    URI := uri
    Version := bytes "HTTP/1.1"
    Headers := some []
    Params := some []
    Body := [] }

/-- The same endpoint registered twice, with different handlers. -/
def twiceRoot : List (Bytes × Bytes × Handler) :=
  [(bytes "GET", bytes "/", rootHandler), (bytes "GET", bytes "/", userAgentHandler)]

/-- The three errors parseRequest returns while it is still at the request line. -/
def ParseError.atRequestLine : ParseError → Bool
  | .eof => true
  | .readingRequestLine _ => true
  | .invalidRequestLine _ => true
  | _ => false

/-- The invariant of a response: contentLength is the byte length of the body. -/
def Response.lengthOk (r : Response) : Prop := r.ContentLength = (r.Body.length : Int)

/-- The name of the request header ApplyEncoding reads. -/
def acceptEncoding : Bytes := bytes "accept-encoding"

/-- An encoder, registered as "br", whose Encode always fails. -/
def failingEncoder : Encoder :=
  { Encode := fun _ => .error (bytes "encode failed")
    ContentEncoding := bytes "br" }

/-- A handler that builds its response with a struct literal, as the fallback
handler of NewRouter does: the Headers map stays nil. -/
def literalHandler : Handler := fun _ =>
  { StatusCode := 200
    StatusMsg := statusText 200
    ContentType := bytes "text/plain"
    ContentLength := 2
    Headers := none
    Body := bytes "hi" }

/-- A request with the given headers, as parseRequest builds it. -/
def requestWith (method uri : Bytes) (headers : Entries) : Request :=
  { Method := method
    URI := uri
    Version := bytes "HTTP/1.1"
    Headers := some headers
    Params := some []
    Body := [] }

/-- A server with the encoder "br" that always fails and the route GET "/"
answered by literalHandler. -/
def failingEncoderServer (gzip : Bytes → Bytes) : Option Server :=
  let s := NewServer gzip [] [] (bytes "gzip")
  let s := { s with
    EncodingManager := s.EncodingManager.RegisterEncoder (bytes "br") failingEncoder }
  s.RegisterEndpoint regexpCompile (bytes "GET") (bytes "/") literalHandler

/-- A server with the route GET "/" answered by literalHandler. -/
def literalServer (gzip : Bytes → Bytes) : Option Server :=
  (NewServer gzip [] [] (bytes "gzip")).RegisterEndpoint regexpCompile (bytes "GET") (bytes "/")
    literalHandler

/-- The responses one pass through the loop body hands to writeResponse. -/
def Step.responses : Step → List Response
  | .stop written _ => written
  | .next written => [written]

/-! ## Lemmas -/

theorem readString_eq_none_iff (d : UInt8) (s : Bytes) : readString d s = none ↔ d ∉ s := by
  induction s with
  | nil => simp [readString]
  | cons b bs ih =>
    unfold readString
    by_cases h : b = d
    · simp [h]
    · have h' : ¬ d = b := fun e => h e.symm
      cases hr : readString d bs with
      | none => simp [h, h', ih.mp hr]
      | some p =>
        have : d ∈ bs := by
          by_contra hc
          rw [ih.mpr hc] at hr
          cases hr
        simp [h, this]

theorem readHeaders_ne_eof (u : Bytes → Bytes) (e : ReadErr) (fuel : Nat) (unread : Bytes)
    (hs : Entries) : readHeaders u e fuel unread hs ≠ .done (.error .eof) := by
  induction fuel generalizing unread hs with
  | zero => simp [readHeaders]
  | succ n ih =>
    unfold readHeaders
    cases hr : readString (byte '\n') unread with
    | none => simp
    | some p =>
      obtain ⟨line, rest⟩ := p
      simp only
      split
      · simp
      · split
        · exact ih _ _
        · simp

theorem readBody_ne_eof (hs : Entries) (unread : Bytes) :
    readBody hs unread ≠ .done (.error .eof) := by
  unfold readBody
  repeat' split
  all_goals simp

theorem parseRequest_eof_iff (u : Bytes → Bytes) (conn : Conn) :
    parseRequest u conn = .done (.error .eof) ↔ (byte '\n' ∉ conn.data ∧ conn.ending = .eof) := by
  unfold parseRequest
  cases hr : readString (byte '\n') conn.data with
  | none =>
    have hn := (readString_eq_none_iff _ _).mp hr
    cases he : conn.ending <;> simp [hn]
  | some p =>
    obtain ⟨line, rest⟩ := p
    have hin : byte '\n' ∈ conn.data := by
      by_contra hc
      rw [(readString_eq_none_iff _ _).mpr hc] at hr
      cases hr
    simp only [hin, not_true_eq_false, false_and, iff_false]
    split
    · split
      · simp
      · rename_i e h
        intro hc
        injection hc with hc
        injection hc with hc
        subst hc
        exact readHeaders_ne_eof _ _ _ _ _ h
      · split
        · simp
        · rename_i e h
          intro hc
          injection hc with hc
          injection hc with hc
          subst hc
          exact readBody_ne_eof _ _ h
        · simp
    · simp

theorem serveRequest_clean_close (u : Bytes → Bytes) (s : Server) (conn : Conn) (later : List Conn)
    (h : parseRequest u conn = .done (.error .eof)) :
    s.serveRequest u (conn :: later) = { written := [], ending := .closed } := by
  simp [Server.serveRequest, Server.iteration, h]

theorem serveRequest_malformed (u : Bytes → Bytes) (s : Server) (conn : Conn) (later : List Conn)
    (e : ParseError) (he : e ≠ .eof) (h : parseRequest u conn = .done (.error e)) :
    s.serveRequest u (conn :: later) = { written := [badRequest], ending := .closed } := by
  cases e <;> simp_all [Server.serveRequest, Server.iteration]

theorem longestFirst_some {β : Type} (f : Nat → Option β) (n : Nat) (r : β)
    (h : longestFirst f n = some r) : ∃ k, f k = some r := by
  induction n with
  | zero => simp [longestFirst] at h
  | succ m ih =>
    unfold longestFirst at h
    cases hf : f (m + 1) with
    | none => rw [hf] at h; exact ih h
    | some x => rw [hf] at h; exact ⟨m + 1, by rw [hf]; exact h⟩

theorem matchNodes_groups_length (ns : List Node) (pos : Nat) (s : Bytes) (stop : Nat)
    (groups : List Bytes) (h : matchNodes ns pos s = some (stop, groups)) :
    groups.length = (ns.filterMap Node.groupName).length := by
  induction ns generalizing pos s stop groups with
  | nil =>
    simp [matchNodes] at h
    simp [h.2.symm]
  | cons n ns ih =>
    cases n with
    | lit c =>
      cases s with
      | nil => simp [matchNodes] at h
      | cons b bs =>
        simp only [matchNodes] at h
        split at h
        · simpa [Node.groupName] using ih _ _ _ _ h
        · cases h
    | anyNotNL =>
      cases s with
      | nil => simp [matchNodes] at h
      | cons b bs =>
        simp only [matchNodes] at h
        split at h
        · cases h
        · simpa [Node.groupName] using ih _ _ _ _ h
    | beginText =>
      simp only [matchNodes] at h
      split at h
      · simpa [Node.groupName] using ih _ _ _ _ h
      · cases h
    | endText =>
      simp only [matchNodes] at h
      split at h
      · simpa [Node.groupName] using ih _ _ _ _ h
      · cases h
    | wordGroup name =>
      simp only [matchNodes] at h
      obtain ⟨k, hk⟩ := longestFirst_some _ _ _ h
      cases hm : matchNodes ns (pos + k) (List.drop k s) with
      | none => simp [hm] at hk
      | some p =>
        obtain ⟨st, gs⟩ := p
        simp [hm] at hk
        have := ih _ _ _ _ hm
        simp [Node.groupName, ← hk.2, this]

theorem setParams_done (submatch : List Bytes) (names : List Bytes) (i : Nat) (ps : Entries)
    (h : i + names.length ≤ submatch.length) :
    ∃ ps', setParams submatch names i (some ps) = .done (some ps') := by
  induction names generalizing i ps with
  | nil => exact ⟨ps, rfl⟩
  | cons n ns ih =>
    have hi : i < submatch.length := by simp at h; omega
    have hget : submatch.get? i = some (submatch.get ⟨i, hi⟩) := List.get?_eq_get hi
    simp only [setParams, hget, GoMap.set]
    apply ih
    simp at h
    omega

theorem matchRoutes_spec (nf : Handler) (req : Request) (hp : req.Params ≠ none)
    (routes : List route) :
    (∃ pre rt post req', routes = pre ++ rt :: post ∧ (∀ r ∈ pre, ¬ r.accepts req) ∧
        rt.accepts req ∧ matchRoutes nf req routes = .done (rt.handler, req')) ∨
      ((∀ r ∈ routes, ¬ r.accepts req) ∧ matchRoutes nf req routes = .done (nf, req)) := by
  induction routes with
  | nil => right; simp [matchRoutes]
  | cons rt more ih =>
    by_cases hacc : rt.accepts req
    · left
      obtain ⟨hm, hf⟩ := hacc
      cases hfs : rt.pattern.FindStringSubmatch req.URI with
      | none => exact absurd hfs hf
      | some sub =>
        obtain ⟨ps, hps⟩ := Option.ne_none_iff_exists'.mp hp
        have hlen : 0 + rt.pattern.SubexpNames.length ≤ sub.length := by
          unfold Regexp.FindStringSubmatch at hfs
          cases hfind : rt.pattern.find req.URI with
          | none => simp [hfind] at hfs
          | some p =>
            obtain ⟨whole, captured⟩ := p
            simp [hfind] at hfs
            simp [Regexp.SubexpNames, ← hfs]
        obtain ⟨ps', hset⟩ := setParams_done sub rt.pattern.SubexpNames 0 ps hlen
        refine ⟨[], rt, more, { req with Params := some ps' }, rfl, by simp, ⟨hm, hf⟩, ?_⟩
        simp [matchRoutes, hm, hfs, hps, hset]
    · have hskip : matchRoutes nf req (rt :: more) = matchRoutes nf req more := by
        by_cases hm : req.Method = rt.method
        · have : rt.pattern.FindStringSubmatch req.URI = none := by
            by_contra hc
            exact hacc ⟨hm, hc⟩
          simp [matchRoutes, hm, this]
        · simp [matchRoutes, hm]
      rcases ih with ⟨pre, r, post, req', hsplit, hpre, hr, hres⟩ | ⟨hall, hres⟩
      · left
        refine ⟨rt :: pre, r, post, req', by simp [hsplit], ?_, hr, by rw [hskip, hres]⟩
        intro x hx
        rcases List.mem_cons.mp hx with rfl | hx
        · exact hacc
        · exact hpre x hx
      · right
        refine ⟨?_, by rw [hskip, hres]⟩
        intro x hx
        rcases List.mem_cons.mp hx with rfl | hx
        · exact hacc
        · exact hall x hx

theorem forall₂_mem_left {α β : Type} {R : α → β → Prop} {l₁ : List α} {l₂ : List β}
    (h : List.Forall₂ R l₁ l₂) {a : α} (ha : a ∈ l₁) : ∃ b ∈ l₂, R a b := by
  induction h with
  | nil => cases ha
  | cons hab _ ih =>
    rcases List.mem_cons.mp ha with rfl | ha'
    · exact ⟨_, List.mem_cons_self _ _, hab⟩
    · obtain ⟨b, hb, hr⟩ := ih ha'
      exact ⟨b, List.mem_cons_of_mem _ hb, hr⟩

theorem matchRoutes_skip (nf : Handler) (req : Request) (rt : route) (more : List route)
    (h : rt.pattern.FindStringSubmatch req.URI = none) :
    matchRoutes nf req (rt :: more) = matchRoutes nf req more := by
  by_cases hm : req.Method = rt.method <;> simp [matchRoutes, hm, h]

theorem matchRoutes_hit (nf : Handler) (req : Request) (rt : route) (more : List route)
    (sub : List Bytes) (params : GoMap) (hm : req.Method = rt.method)
    (hf : rt.pattern.FindStringSubmatch req.URI = some sub)
    (hs : setParams sub rt.pattern.SubexpNames 0 req.Params = .done params) :
    matchRoutes nf req (rt :: more) = .done (rt.handler, { req with Params := params }) := by
  simp [matchRoutes, hm, hf, hs]

theorem registerAll_routes (compile : Bytes → Option Regexp)
    (eps : List (Bytes × Bytes × Handler)) (s s' : Server)
    (h : s.registerAll compile eps = some s') :
    ∃ added : List route, s'.Router.routes = s.Router.routes ++ added ∧
      List.Forall₂ (fun rt e => rt.method = e.1 ∧ rt.handler = e.2.2 ∧
        compile (routePattern e.2.1) = some rt.pattern) added eps ∧
      s'.Router.notFound = s.Router.notFound := by
  induction eps generalizing s with
  | nil =>
    simp [Server.registerAll] at h
    subst h
    exact ⟨[], by simp, List.Forall₂.nil, rfl⟩
  | cons e more ih =>
    obtain ⟨m, p, hd⟩ := e
    simp only [Server.registerAll] at h
    cases hr : s.RegisterEndpoint compile m p hd with
    | none => simp [hr] at h
    | some s1 =>
      simp only [hr] at h
      obtain ⟨added, hroutes, hall, hnf⟩ := ih s1 h
      unfold Server.RegisterEndpoint at hr
      dsimp only at hr
      split at hr
      · cases hr
      · rename_i re hc
        simp only [Option.some.injEq] at hr
        subst hr
        refine ⟨{ method := m, pattern := re, handler := hd } :: added, ?_, ?_, ?_⟩
        · simpa using hroutes
        · exact List.Forall₂.cons ⟨rfl, rfl, hc⟩ hall
        · simpa using hnf

theorem takeWhile_append_stop {p : UInt8 → Bool} (w : Bytes) (b : UInt8) (rest : Bytes)
    (hw : ∀ x ∈ w, p x = true) (hb : p b = false) :
    (w ++ b :: rest).takeWhile p = w := by
  induction w with
  | nil => simp [List.takeWhile, hb]
  | cons x xs ih =>
    have hx : p x = true := hw x (List.mem_cons_self _ _)
    have := ih (fun y hy => hw y (List.mem_cons_of_mem _ hy))
    simp [List.takeWhile, hx, this]

theorem matchNodes_wordGroup (name : Bytes) (ns : List Node) (pos : Nat) (w : Bytes) (b : UInt8)
    (rest : Bytes) (stop : Nat) (gs : List Bytes) (hne : w ≠ [])
    (hw : ∀ x ∈ w, isWordByte x = true) (hb : isWordByte b = false)
    (hm : matchNodes ns (pos + w.length) (b :: rest) = some (stop, gs)) :
    matchNodes (Node.wordGroup name :: ns) pos (w ++ b :: rest) = some (stop, w :: gs) := by
  simp only [matchNodes, takeWhile_append_stop w b rest hw hb]
  obtain ⟨n, hn⟩ : ∃ n, w.length = n + 1 := by
    cases w with
    | nil => exact absurd rfl hne
    | cons x xs => exact ⟨xs.length, rfl⟩
  rw [hn, longestFirst, ← hn]
  simp [hm]

theorem Entries.lookup_insert (es : Entries) (k v : Bytes) :
    Entries.lookup (Entries.insert es k v) k = some v := by
  induction es with
  | nil => simp [Entries.insert, Entries.lookup]
  | cons e es ih =>
    obtain ⟨k', v'⟩ := e
    by_cases h : k' = k
    · simp [Entries.insert, Entries.lookup, h]
    · simp [Entries.insert, Entries.lookup, h, ih]

theorem mainServer_eq (gzip : Bytes → Bytes) (fs : FileSystem) (addr tmpDir : Bytes) :
    mainServer regexpCompile gzip fs addr tmpDir = some
      { TmpDir := tmpDir
        Address := addr
        EncodingManager := NewEncodeManager gzip
        Router := { routes := mainRoutes fs tmpDir, notFound := NewRouter.notFound }
        SupportedEncoding := bytes "gzip" } := rfl

theorem echo_pattern_match (msg : Bytes) (hne : msg ≠ [])
    (hw : ∀ b ∈ msg, isWordByte b = true) :
    matchNodes ([Node.beginText] ++ (bytes "/echo/").map Node.lit ++
        [Node.wordGroup (bytes "msg")] ++ (bytes "/").map Node.lit ++ [Node.endText]) 0
      (bytes "/echo/" ++ msg ++ bytes "/") = some (msg.length + 7, [msg]) := by
  have e1 : bytes "/echo/" = [47, 101, 99, 104, 111, 47] := by decide
  have e2 : bytes "/" = [47] := by decide
  have e3 : byte '/' = 47 := by decide
  rw [e1, e2]
  simp only [List.map, List.cons_append, List.nil_append, List.append_assoc, matchNodes,
    if_true, zero_add]
  have hb : isWordByte 47 = false := by decide
  have hm : matchNodes [Node.lit 47, Node.endText] (6 + msg.length) [47] =
      some (msg.length + 7, []) := by
    simp [matchNodes]
    omega
  simpa using matchNodes_wordGroup (bytes "msg") [Node.lit 47, Node.endText] 6 msg 47 [] _ _
    hne hw hb hm

/-! ### The modelled patterns return exactly the groups they matched -/

theorem range_map_getD (groups : List Bytes) :
    (List.range groups.length).map (fun i => groups.getD i []) = groups := by
  apply List.ext_getElem
  · simp
  · intro i h1 h2
    simp at h1
    simp [List.getD, List.getElem?_eq_getElem h1]

theorem ofNodes_FindStringSubmatch (nodes : List Node) (s : Bytes) (stop : Nat)
    (groups : List Bytes) (h : matchNodes nodes 0 s = some (stop, groups)) :
    (Regexp.ofNodes nodes).FindStringSubmatch s = some (s.take stop :: groups) := by
  have hlen := matchNodes_groups_length nodes 0 s stop groups h
  simp only [Regexp.FindStringSubmatch, Regexp.ofNodes, h, ← hlen, range_map_getD]

theorem iteration_at_eof (u : Bytes → Bytes) (s : Server) :
    s.iteration u { data := [], ending := .eof } = .stop [] .closed := rfl

/-! ### The fuel of the bounded loops is never exhausted -/

theorem leadingSpace_nil : leadingSpace [] = 0 := by decide

theorem trailingSpace_nil : trailingSpace [] = 0 := by decide

theorem trimLeftSpace_fuel (n m : Nat) (s : Bytes) (hn : s.length ≤ n) (hm : s.length ≤ m) :
    trimLeftSpace n s = trimLeftSpace m s := by
  induction n generalizing m s with
  | zero =>
    have hs : s = [] := List.length_eq_zero.mp (Nat.le_zero.mp hn)
    subst hs
    cases m <;> simp [trimLeftSpace, leadingSpace_nil]
  | succ n ih =>
    cases m with
    | zero =>
      have hs : s = [] := List.length_eq_zero.mp (Nat.le_zero.mp hm)
      subst hs
      simp [trimLeftSpace, leadingSpace_nil]
    | succ m =>
      unfold trimLeftSpace
      cases hl : leadingSpace s with
      | zero => rfl
      | succ w =>
        have hne : s ≠ [] := by
          intro h
          subst h
          rw [leadingSpace_nil] at hl
          cases hl
        have hpos : 0 < s.length := List.length_pos.mpr hne
        exact ih m _ (by simp; omega) (by simp; omega)

theorem trimRightSpace_fuel (n m : Nat) (s : Bytes) (hn : s.length ≤ n) (hm : s.length ≤ m) :
    trimRightSpace n s = trimRightSpace m s := by
  induction n generalizing m s with
  | zero =>
    have hs : s = [] := List.length_eq_zero.mp (Nat.le_zero.mp hn)
    subst hs
    cases m <;> simp [trimRightSpace, trailingSpace_nil]
  | succ n ih =>
    cases m with
    | zero =>
      have hs : s = [] := List.length_eq_zero.mp (Nat.le_zero.mp hm)
      subst hs
      simp [trimRightSpace, trailingSpace_nil]
    | succ m =>
      unfold trimRightSpace
      cases hl : trailingSpace s with
      | zero => rfl
      | succ w =>
        have hne : s ≠ [] := by
          intro h
          subst h
          rw [trailingSpace_nil] at hl
          cases hl
        have hpos : 0 < s.length := List.length_pos.mpr hne
        exact ih m _ (by simp; omega) (by simp; omega)

theorem readString_length (d : UInt8) (s line rest : Bytes)
    (h : readString d s = some (line, rest)) : rest.length < s.length := by
  induction s generalizing line rest with
  | nil => simp [readString] at h
  | cons b bs ih =>
    unfold readString at h
    split at h
    · simp at h
      simp [← h.2]
    · cases hr : readString d bs with
      | none => simp [hr] at h
      | some p =>
        obtain ⟨l, r⟩ := p
        simp [hr] at h
        have := ih l r hr
        simp [← h.2]
        omega

theorem readHeaders_fuel (u : Bytes → Bytes) (e : ReadErr) (n m : Nat) (unread : Bytes)
    (hs : Entries) (hn : unread.length ≤ n) (hm : unread.length ≤ m) :
    readHeaders u e n unread hs = readHeaders u e m unread hs := by
  induction n generalizing m unread hs with
  | zero =>
    have h0 : unread = [] := List.length_eq_zero.mp (Nat.le_zero.mp hn)
    subst h0
    cases m <;> simp [readHeaders, readString]
  | succ n ih =>
    cases m with
    | zero =>
      have h0 : unread = [] := List.length_eq_zero.mp (Nat.le_zero.mp hm)
      subst h0
      simp [readHeaders, readString]
    | succ m =>
      unfold readHeaders
      cases hr : readString (byte '\n') unread with
      | none => rfl
      | some p =>
        obtain ⟨line, rest⟩ := p
        have hlt := readString_length _ _ _ _ hr
        simp only
        split
        · rfl
        · split
          · exact ih m _ _ (by omega) (by omega)
          · rfl

theorem replacePlaceholders_fuel (n m : Nat) (s : Bytes) (hn : s.length ≤ n) (hm : s.length ≤ m) :
    replacePlaceholders n s = replacePlaceholders m s := by
  induction n generalizing m s with
  | zero =>
    have h0 : s = [] := List.length_eq_zero.mp (Nat.le_zero.mp hn)
    subst h0
    cases m <;> simp [replacePlaceholders]
  | succ n ih =>
    cases m with
    | zero =>
      have h0 : s = [] := List.length_eq_zero.mp (Nat.le_zero.mp hm)
      subst h0
      simp [replacePlaceholders]
    | succ m =>
      cases s with
      | nil => simp [replacePlaceholders]
      | cons b rest =>
        simp only [replacePlaceholders]
        simp only [List.length_cons] at hn hm
        rw [ih m rest (by omega) (by omega),
          ih m (rest.drop ((rest.takeWhile isWordByte).length + 1)) (by simp; omega) (by simp; omega)]

theorem parseGroup_length (afterParen name rest : Bytes)
    (h : parseGroup afterParen = some (name, rest)) : rest.length ≤ afterParen.length := by
  unfold parseGroup at h
  split at h
  · simp only at h
    split at h
    · simp only [Option.some.injEq, Prod.mk.injEq] at h
      rw [← h.2]
      simp only [List.length_drop]
      omega
    · cases h
  · cases h

theorem parseNodes_fuel (n m : Nat) (s : Bytes) (hn : s.length < n) (hm : s.length < m) :
    parseNodes n s = parseNodes m s := by
  induction n generalizing m s with
  | zero => omega
  | succ n ih =>
    cases m with
    | zero => omega
    | succ m =>
      cases s with
      | nil => simp [parseNodes]
      | cons b rest =>
        simp only [List.length_cons] at hn hm
        simp only [parseNodes]
        split
        · cases hg : parseGroup rest with
          | none => rfl
          | some p =>
            obtain ⟨name, rest'⟩ := p
            have := parseGroup_length _ _ _ hg
            simp only
            rw [ih m rest' (by omega) (by omega)]
        · rw [ih m rest (by omega) (by omega)]

theorem parseRequest_params (u : Bytes → Bytes) (conn : Conn) (req : Request)
    (h : parseRequest u conn = .done (.ok req)) : req.Params = some [] := by
  unfold parseRequest at h
  split at h
  · split at h <;> cases h
  · split at h
    · simp only at h
      split at h
      · cases h
      · cases h
      · split at h
        · cases h
        · cases h
        · simp only [Exec.done.injEq, Except.ok.injEq] at h
          rw [← h]
    · cases h

/-! ### Request line, body, encoding and serialisation -/

theorem readHeaders_not_atRequestLine (u : Bytes → Bytes) (e : ReadErr) (fuel : Nat) (unread : Bytes)
    (hs : Entries) (err : ParseError) (h : readHeaders u e fuel unread hs = .done (.error err)) :
    err.atRequestLine = false := by
  induction fuel generalizing unread hs with
  | zero =>
    simp [readHeaders] at h
    subst h
    rfl
  | succ n ih =>
    unfold readHeaders at h
    cases hr : readString (byte '\n') unread with
    | none =>
      simp [hr] at h
      subst h
      rfl
    | some p =>
      obtain ⟨line, rest⟩ := p
      simp only [hr] at h
      split at h
      · cases h
      · split at h
        · exact ih _ _ h
        · cases h

theorem readBody_not_atRequestLine (hs : Entries) (unread : Bytes) (err : ParseError)
    (h : readBody hs unread = .done (.error err)) : err.atRequestLine = false := by
  unfold readBody at h
  repeat' split at h
  all_goals (cases h; try rfl)

/-- What parseRequest does once the request line has given its three tokens (http.go lines 96-148). -/
theorem parseRequest_three_tokens (u : Bytes → Bytes) (conn : Conn) (requestLine rest : Bytes)
    (method uri version : Bytes)
    (hread : readString (byte '\n') conn.data = some (requestLine, rest))
    (hsplit : Split (byte ' ') (TrimSpace requestLine) = [method, uri, version]) :
    parseRequest u conn =
      match readHeaders u conn.ending rest.length rest [] with
      | .panic => .panic
      | .done (.error e) => .done (.error e)
      | .done (.ok (headers, unread)) =>
        match readBody headers unread with
        | .panic => .panic
        | .done (.error e) => .done (.error e)
        | .done (.ok body) =>
          .done (.ok
            { Method := method
              URI := if !HasSuffix uri (byte '/') && !Contains uri (byte '?') then uri ++ [byte '/']
                else uri
              Version := version
              Headers := some headers
              Params := some []
              Body := body }) := by
  unfold parseRequest
  simp only [hread, hsplit]

theorem parseRequest_other_tokens (u : Bytes → Bytes) (conn : Conn) (requestLine rest : Bytes)
    (hread : readString (byte '\n') conn.data = some (requestLine, rest))
    (hsplit : (Split (byte ' ') (TrimSpace requestLine)).length ≠ 3) :
    parseRequest u conn = .done (.error (.invalidRequestLine requestLine)) := by
  unfold parseRequest
  simp only [hread]
  split
  · rename_i h
    rw [h] at hsplit
    simp at hsplit
  · rfl

theorem readString_line (d : UInt8) (l tail : Bytes) (h : d ∉ l) :
    readString d (l ++ d :: tail) = some (l ++ [d], tail) := by
  induction l with
  | nil => simp [readString]
  | cons b bs ih =>
    have hb : ¬ b = d := fun e => h (by simp [e])
    have hbs : d ∉ bs := fun e => h (List.mem_cons_of_mem _ e)
    simp [readString, hb, ih hbs]

theorem normalised_iff (uri : Bytes) :
    (if !HasSuffix uri (byte '/') && !Contains uri (byte '?') then uri ++ [byte '/'] else uri) =
      (if uri.getLast? = some (byte '/') ∨ byte '?' ∈ uri then uri else uri ++ [byte '/']) := by
  by_cases h1 : uri.getLast? = some (byte '/') <;> by_cases h2 : byte '?' ∈ uri <;>
    simp [HasSuffix, Contains, h1, h2]

theorem parse_foo_eq (u : Bytes → Bytes) (tail : Bytes) (e : ReadErr) :
    parseRequest u { data := bytes "GET /foo HTTP/1.1\r\n" ++ tail, ending := e } =
      parseRequest u { data := bytes "GET /foo/ HTTP/1.1\r\n" ++ tail, ending := e } := by
  have e1 : bytes "GET /foo HTTP/1.1\r\n" = bytes "GET /foo HTTP/1.1\r" ++ [byte '\n'] := by decide
  have e2 : bytes "GET /foo/ HTTP/1.1\r\n" = bytes "GET /foo/ HTTP/1.1\r" ++ [byte '\n'] := by decide
  have r1 : readString (byte '\n') (bytes "GET /foo HTTP/1.1\r\n" ++ tail) =
      some (bytes "GET /foo HTTP/1.1\r\n", tail) := by
    rw [e1, List.append_assoc]
    exact readString_line _ _ _ (by decide)
  have r2 : readString (byte '\n') (bytes "GET /foo/ HTTP/1.1\r\n" ++ tail) =
      some (bytes "GET /foo/ HTTP/1.1\r\n", tail) := by
    rw [e2, List.append_assoc]
    exact readString_line _ _ _ (by decide)
  have s1 : Split (byte ' ') (TrimSpace (bytes "GET /foo HTTP/1.1\r\n")) =
      [bytes "GET", bytes "/foo", bytes "HTTP/1.1"] := by decide
  have s2 : Split (byte ' ') (TrimSpace (bytes "GET /foo/ HTTP/1.1\r\n")) =
      [bytes "GET", bytes "/foo/", bytes "HTTP/1.1"] := by decide
  have n1 : (if !HasSuffix (bytes "/foo") (byte '/') && !Contains (bytes "/foo") (byte '?')
      then bytes "/foo" ++ [byte '/'] else bytes "/foo") = bytes "/foo/" := by decide
  have n2 : (if !HasSuffix (bytes "/foo/") (byte '/') && !Contains (bytes "/foo/") (byte '?')
      then bytes "/foo/" ++ [byte '/'] else bytes "/foo/") = bytes "/foo/" := by decide
  rw [parseRequest_three_tokens u _ _ _ _ _ _ r1 s1, parseRequest_three_tokens u _ _ _ _ _ _ r2 s2,
    n1, n2]

/-- The body stage of parseRequest after well-formed headers, for a
content-length within the allocation limit. -/
theorem parseRequest_body (u : Bytes → Bytes) (conn : Conn)
    (requestLine rest method uri version : Bytes) (headers : Entries) (unread : Bytes)
    (hread : readString (byte '\n') conn.data = some (requestLine, rest))
    (hsplit : Split (byte ' ') (TrimSpace requestLine) = [method, uri, version])
    (hheaders : readHeaders u conn.ending rest.length rest [] = .done (.ok (headers, unread))) :
    (headers.lookup (bytes "content-length") = none →
      ∃ req, parseRequest u conn = .done (.ok req) ∧ req.Body = []) ∧
    (∀ str (n : Int), headers.lookup (bytes "content-length") = some str → Atoi str = some n →
      0 < n → n.toNat ≤ maxAlloc →
      (n.toNat ≤ unread.length →
        ∃ req, parseRequest u conn = .done (.ok req) ∧ req.Body = unread.take n.toNat) ∧
      (unread.length < n.toNat → parseRequest u conn = .done (.error .readingBody))) := by
  rw [parseRequest_three_tokens u conn requestLine rest method uri version hread hsplit, hheaders]
  constructor
  · intro hnone
    simp only [readBody, hnone]
    exact ⟨_, rfl, rfl⟩
  · intro str n hsome hatoi hpos hmax
    have hmax' : ¬ n.toNat > maxAlloc := by omega
    constructor
    · intro hle
      simp only [readBody, hsome, hatoi, gt_iff_lt, hpos, if_true, hmax', if_false, hle]
      exact ⟨_, rfl, rfl⟩
    · intro hlt
      have hle : ¬ n.toNat ≤ unread.length := by omega
      simp only [readBody, hsome, hatoi, gt_iff_lt, hpos, if_true, hmax', if_false, hle]

theorem Entries.lookup_insert_ne (es : Entries) (k k' v : Bytes) (h : k' ≠ k) :
    Entries.lookup (Entries.insert es k v) k' = Entries.lookup es k' := by
  induction es with
  | nil =>
    have h' : ¬ k = k' := fun e => h e.symm
    simp [Entries.insert, Entries.lookup, h']
  | cons e es ih =>
    obtain ⟨k0, v0⟩ := e
    by_cases h0 : k0 = k
    · subst h0
      have h' : ¬ k0 = k' := fun e => h e.symm
      simp [Entries.insert, Entries.lookup, h']
    · by_cases h1 : k0 = k'
      · subst h1
        simp [Entries.insert, Entries.lookup, h0]
      · simp [Entries.insert, Entries.lookup, h0, h1, ih]

/-- ApplyEncoding when an encoder is found and succeeds, for a response with
an initialised Headers map. -/
theorem ApplyEncoding_success (manager : EncodeManager) (req : Request) (res : Response)
    (encoder : Encoder) (encoded : Bytes) (hs : Entries)
    (hbody : res.Body ≠ []) (hhs : res.Headers = some hs)
    (hget : manager.GetEncoding (req.Headers.get acceptEncoding) = some encoder)
    (henc : encoder.Encode res.Body = .ok encoded) :
    manager.ApplyEncoding req res =
      .done ({ res with
                Body := encoded
                ContentLength := (encoded.length : Int)
                Headers := some (hs.insert (bytes "Content-Encoding") encoder.ContentEncoding) },
        none) := by
  have hlen : res.Body.length ≠ 0 := fun h => hbody (List.length_eq_zero.mp h)
  unfold EncodeManager.ApplyEncoding
  simp only [hlen, if_false]
  have hget' : manager.GetEncoding (req.Headers.get (bytes "accept-encoding")) = some encoder := hget
  simp only [hget', henc, hhs, GoMap.set]

theorem ApplyEncoding_nil_headers (manager : EncodeManager) (req : Request) (res : Response)
    (encoder : Encoder) (encoded : Bytes)
    (hbody : res.Body ≠ []) (hhs : res.Headers = none)
    (hget : manager.GetEncoding (req.Headers.get acceptEncoding) = some encoder)
    (henc : encoder.Encode res.Body = .ok encoded) :
    manager.ApplyEncoding req res = .panic := by
  have hlen : res.Body.length ≠ 0 := fun h => hbody (List.length_eq_zero.mp h)
  unfold EncodeManager.ApplyEncoding
  simp only [hlen, if_false]
  have hget' : manager.GetEncoding (req.Headers.get (bytes "accept-encoding")) = some encoder := hget
  simp only [hget', henc, hhs, GoMap.set]

theorem ApplyEncoding_failure (manager : EncodeManager) (req : Request) (res : Response)
    (encoder : Encoder) (err : Error)
    (hbody : res.Body ≠ [])
    (hget : manager.GetEncoding (req.Headers.get acceptEncoding) = some encoder)
    (henc : encoder.Encode res.Body = .error err) :
    manager.ApplyEncoding req res = .done (res, some err) := by
  have hlen : res.Body.length ≠ 0 := fun h => hbody (List.length_eq_zero.mp h)
  unfold EncodeManager.ApplyEncoding
  simp only [hlen, if_false]
  have hget' : manager.GetEncoding (req.Headers.get (bytes "accept-encoding")) = some encoder := hget
  simp only [hget', henc]

theorem ApplyEncoding_no_encoder (manager : EncodeManager) (req : Request) (res : Response)
    (h : res.Body = [] ∨ manager.GetEncoding (req.Headers.get acceptEncoding) = none) :
    manager.ApplyEncoding req res = .done (res, none) := by
  unfold EncodeManager.ApplyEncoding
  by_cases hlen : res.Body.length = 0
  · simp [hlen]
  · rcases h with h | h
    · exact absurd (by simp [h]) hlen
    · have h' : manager.GetEncoding (req.Headers.get (bytes "accept-encoding")) = none := h
      simp only [hlen, if_false, h']

theorem firstEncoder_eq_none_iff (encoders : List (Bytes × Encoder)) (cands : List Bytes) :
    firstEncoder encoders cands = none ↔
      ∀ c ∈ cands, lookupEncoder encoders (TrimSpace c) = none := by
  induction cands with
  | nil => simp [firstEncoder]
  | cons c more ih =>
    unfold firstEncoder
    cases hl : lookupEncoder encoders (TrimSpace c) with
    | none => simp [hl, ih]
    | some enc => simp [hl]

theorem firstEncoder_eq_some (encoders : List (Bytes × Encoder)) (cands : List Bytes)
    (encoder : Encoder) (h : firstEncoder encoders cands = some encoder) :
    ∃ pre c post, cands = pre ++ c :: post ∧
      (∀ x ∈ pre, lookupEncoder encoders (TrimSpace x) = none) ∧
      lookupEncoder encoders (TrimSpace c) = some encoder := by
  induction cands with
  | nil => simp [firstEncoder] at h
  | cons c more ih =>
    unfold firstEncoder at h
    cases hl : lookupEncoder encoders (TrimSpace c) with
    | none =>
      simp only [hl] at h
      obtain ⟨pre, c', post, hsplit, hpre, hc⟩ := ih h
      refine ⟨c :: pre, c', post, by simp [hsplit], ?_, hc⟩
      intro x hx
      rcases List.mem_cons.mp hx with rfl | hx
      · exact hl
      · exact hpre x hx
    | some enc =>
      simp only [hl, Option.some.injEq] at h
      subst h
      exact ⟨[], c, more, rfl, by simp, hl⟩

/-- The fields of the response after a successful encoding. -/
theorem ApplyEncoding_success_fields (manager : EncodeManager) (req : Request) (res : Response)
    (encoder : Encoder) (encoded : Bytes) (hs : Entries)
    (hbody : res.Body ≠ []) (hhs : res.Headers = some hs)
    (hget : manager.GetEncoding (req.Headers.get acceptEncoding) = some encoder)
    (henc : encoder.Encode res.Body = .ok encoded) :
    ∃ res', manager.ApplyEncoding req res = .done (res', none) ∧
      res'.Body = encoded ∧ res'.ContentLength = (encoded.length : Int) ∧
      res'.Headers.lookup (bytes "Content-Encoding") = some encoder.ContentEncoding ∧
      res'.StatusCode = res.StatusCode ∧ res'.StatusMsg = res.StatusMsg ∧
      res'.ContentType = res.ContentType ∧
      ∀ k, k ≠ bytes "Content-Encoding" → res'.Headers.lookup k = res.Headers.lookup k := by
  refine ⟨_, ApplyEncoding_success manager req res encoder encoded hs hbody hhs hget henc,
    rfl, rfl, ?_, rfl, rfl, rfl, ?_⟩
  · simp [GoMap.lookup, Entries.lookup_insert]
  · intro k hk
    simp [GoMap.lookup, hhs, Entries.lookup_insert_ne _ _ _ _ hk]

/-- The loop body when the encoder fails: the response of the handler goes
on unencoded. Without connection: close it is written as it is and the loop
continues; with connection: close and an initialised Headers map it is
written with the Connection header added and the loop returns. -/
theorem dispatch_encoder_failure (s : Server) (req0 req : Request) (handler : Handler)
    (encoder : Encoder) (err : Error)
    (hmatch : s.Router.Match req0 = .done (handler, req))
    (hbody : (handler req).Body ≠ [])
    (hget : s.EncodingManager.GetEncoding (req.Headers.get acceptEncoding) = some encoder)
    (henc : encoder.Encode (handler req).Body = .error err) :
    (req.Headers.get (bytes "connection") ≠ bytes "close" →
      s.dispatch req0 = .next (handler req)) ∧
    (req.Headers.get (bytes "connection") = bytes "close" → ∀ hs,
      (handler req).Headers = some hs →
      s.dispatch req0 =
        .stop [{ handler req with
                  Headers := some (hs.insert (bytes "Connection") (bytes "close")) }] .closed) := by
  have happly := ApplyEncoding_failure s.EncodingManager req (handler req) encoder err hbody hget henc
  constructor
  · intro hc
    simp only [Server.dispatch, hmatch, happly, hc, if_false]
  · intro hc hs hhs
    simp only [Server.dispatch, hmatch, happly, hc, if_true, hhs, GoMap.set]

theorem matchRoutes_handler (nf : Handler) (req : Request) (routes : List route) (h : Handler)
    (req' : Request) (hm : matchRoutes nf req routes = .done (h, req')) :
    h = nf ∨ ∃ rt ∈ routes, h = rt.handler := by
  induction routes with
  | nil =>
    simp [matchRoutes] at hm
    exact Or.inl hm.1.symm
  | cons rt more ih =>
    unfold matchRoutes at hm
    split at hm
    · rcases ih hm with h1 | ⟨r, hr, h2⟩
      · exact Or.inl h1
      · exact Or.inr ⟨r, List.mem_cons_of_mem _ hr, h2⟩
    · split at hm
      · rcases ih hm with h1 | ⟨r, hr, h2⟩
        · exact Or.inl h1
        · exact Or.inr ⟨r, List.mem_cons_of_mem _ hr, h2⟩
      · split at hm
        · cases hm
        · simp only [Exec.done.injEq, Prod.mk.injEq] at hm
          exact Or.inr ⟨rt, List.mem_cons_self _ _, hm.1.symm⟩

theorem ApplyEncoding_lengthOk (manager : EncodeManager) (req : Request) (res res' : Response)
    (err : Option Error) (hok : res.lengthOk)
    (h : manager.ApplyEncoding req res = .done (res', err)) : res'.lengthOk := by
  unfold EncodeManager.ApplyEncoding at h
  split at h
  · simp only [Exec.done.injEq, Prod.mk.injEq] at h
    rw [← h.1]
    exact hok
  · dsimp only at h
    split at h
    · simp only [Exec.done.injEq, Prod.mk.injEq] at h
      rw [← h.1]
      exact hok
    · split at h
      · simp only [Exec.done.injEq, Prod.mk.injEq] at h
        rw [← h.1]
        exact hok
      · split at h
        · cases h
        · simp only [Exec.done.injEq, Prod.mk.injEq] at h
          rw [← h.1]
          rfl

theorem dispatch_lengthOk (s : Server) (req : Request)
    (hroutes : ∀ rt ∈ s.Router.routes, ∀ q, (rt.handler q).lengthOk)
    (hnf : ∀ q, (s.Router.notFound q).lengthOk) :
    ∀ r ∈ (s.dispatch req).responses, r.lengthOk := by
  unfold Server.dispatch
  cases hm : s.Router.Match req with
  | panic => simp [Step.responses]
  | done p =>
    obtain ⟨handler, req'⟩ := p
    have hh : ∀ q, (handler q).lengthOk := by
      rcases matchRoutes_handler _ _ _ _ _ hm with h1 | ⟨rt, hrt, h2⟩
      · rw [h1]; exact hnf
      · rw [h2]; exact hroutes rt hrt
    simp only
    cases ha : s.EncodingManager.ApplyEncoding req' (handler req') with
    | panic => simp [Step.responses]
    | done p2 =>
      obtain ⟨response, err⟩ := p2
      have hr : response.lengthOk := ApplyEncoding_lengthOk _ _ _ _ _ (hh req') ha
      simp only
      split
      · cases hset : response.Headers.set (bytes "Connection") (bytes "close") with
        | panic => simp [Step.responses]
        | done headers =>
          simp only [Step.responses, List.mem_singleton]
          intro r hr'
          rw [hr']
          exact hr
      · simp only [Step.responses, List.mem_singleton]
        intro r hr'
        rw [hr']
        exact hr

theorem iteration_lengthOk (u : Bytes → Bytes) (s : Server) (conn : Conn)
    (hroutes : ∀ rt ∈ s.Router.routes, ∀ q, (rt.handler q).lengthOk)
    (hnf : ∀ q, (s.Router.notFound q).lengthOk) :
    ∀ r ∈ (s.iteration u conn).responses, r.lengthOk := by
  unfold Server.iteration
  split
  · simp [Step.responses]
  · simp [Step.responses]
  · simp only [Step.responses, List.mem_singleton]
    intro r hr
    rw [hr]
    rfl
  · exact dispatch_lengthOk s _ hroutes hnf

theorem serveRequest_lengthOk (u : Bytes → Bytes) (s : Server) (conns : List Conn)
    (hroutes : ∀ rt ∈ s.Router.routes, ∀ q, (rt.handler q).lengthOk)
    (hnf : ∀ q, (s.Router.notFound q).lengthOk) :
    ∀ r ∈ (s.serveRequest u conns).written, r.lengthOk := by
  induction conns with
  | nil => simp [Server.serveRequest]
  | cons conn later ih =>
    have hit := iteration_lengthOk u s conn hroutes hnf
    unfold Server.serveRequest
    cases hi : s.iteration u conn with
    | stop written ending =>
      rw [hi] at hit
      simpa [Step.responses] using hit
    | next response =>
      rw [hi] at hit
      simp only [List.mem_cons]
      intro r hr
      rcases hr with hr | hr
      · rw [hr]
        exact hit response (by simp [Step.responses])
      · exact ih r hr

theorem mainEndpoints_lengthOk (fs : FileSystem) (tmpDir : Bytes) :
    ∀ e ∈ mainEndpoints fs tmpDir, ∀ q, (e.2.2 q).lengthOk := by
  intro e he q
  simp only [mainEndpoints, List.mem_cons, List.mem_singleton, List.not_mem_nil, or_false] at he
  rcases he with rfl | rfl | rfl | rfl | rfl
  · rfl
  · rfl
  · rfl
  · simp only [getFileHandler]
    split <;> rfl
  · simp only [postFileHandler]
    split <;> rfl

theorem foldl_append_lines (f : Bytes × Bytes → Bytes) (es : Entries) (init : Bytes) :
    es.foldl (fun buf kv => buf ++ f kv) init = init ++ es.flatMap f := by
  induction es generalizing init with
  | nil => simp
  | cons e es ih => simp [List.foldl_cons, ih, List.flatMap_cons, List.append_assoc]

/-- Claim C1, refuted on the code: the header line is split at every ':' and
only the text between the first and the second colon is stored. For the line
"Host: localhost:4221" parseRequest stores headers["host"] = "localhost"; the
port after the second colon is lost. -/
theorem header_value_cut_at_second_colon (unicodeLower : Bytes → Bytes) :
    parseRequest unicodeLower
        { data := bytes "GET / HTTP/1.1\r\nHost: localhost:4221\r\n\r\n", ending := .eof } =
      .done (.ok
        { Method := bytes "GET"
          URI := bytes "/"
          Version := bytes "HTTP/1.1"
          Headers := some [(bytes "host", bytes "localhost")]
          Params := some []
          Body := [] }) := rfl

/-- Claim C2, refuted on the code: a non-empty header line without ':' makes
parseRequest index element 1 of a one-element slice, which panics; no error
value is returned. -/
theorem header_without_colon_panics (unicodeLower : Bytes → Bytes) :
    parseRequest unicodeLower
        { data := bytes "GET / HTTP/1.1\r\nbadheader\r\n\r\n", ending := .eof } = .panic := rfl

/-- Claim C3, refuted on the code: for a request with connection: close that
no route matches, serveRequest panics on the write to the nil Headers map of
the 404 response; nothing is written to the connection. -/
theorem connection_close_on_fallback_panics (unicodeLower gzip : Bytes → Bytes)
    (fs : FileSystem) (addr tmpDir : Bytes) :
    ∃ s, mainServer regexpCompile gzip fs addr tmpDir = some s ∧
      s.serveRequest unicodeLower
          [{ data := bytes "DELETE /nope/ HTTP/1.1\r\nConnection: close\r\n\r\n", ending := .eof }] =
        { written := [], ending := .panicked } :=
  ⟨_, rfl, rfl⟩

/-- Claim C4, refuted on the code: the request "GET /missing" with
connection: close parses to completion, the fallback handler answers it with
a response whose Headers map is nil, and the loop body panics when it writes
the Connection header into that map; no response is written. -/
theorem dispatch_writes_into_nil_headers (unicodeLower gzip : Bytes → Bytes)
    (addr tmpDir enc : Bytes) :
    ∃ req, parseRequest unicodeLower
          { data := bytes "GET /missing HTTP/1.1\r\nConnection: close\r\n\r\n", ending := .eof } =
        .done (.ok req) ∧
      ((NewServer gzip addr tmpDir enc).Router.notFound req).Headers = none ∧
      (NewServer gzip addr tmpDir enc).dispatch req = .stop [] .panicked :=
  ⟨_, rfl, rfl, rfl⟩

/-- Claim C5 as stated fails: the stream "GET / HTTP/1.1", which ends after
fourteen bytes of an unterminated request line, makes parseRequest return
io.EOF, and the connection loop returns without writing a 400 response. -/
theorem unterminated_request_line_is_clean_close :
    (bytes "GET / HTTP/1.1").length = 14 ∧
      parseRequest id { data := bytes "GET / HTTP/1.1", ending := .eof } = .done (.error .eof) ∧
      (NewServer id [] [] []).serveRequest id [{ data := bytes "GET / HTTP/1.1", ending := .eof }] =
        { written := [], ending := .closed } := by
  decide

/-- Claim C5, amended: parseRequest returns io.EOF exactly when the stream
ends with io.EOF before any line terminator has arrived, whether zero bytes
or part of a request line were read. The connection loop then returns
without a response; on every other parse error it writes the 400 response
and returns. -/
theorem clean_close_iff_eof_before_terminator (unicodeLower : Bytes → Bytes) (s : Server)
    (conn : Conn) (later : List Conn) :
    (parseRequest unicodeLower conn = .done (.error .eof) ↔
        (byte '\n' ∉ conn.data ∧ conn.ending = .eof)) ∧
      (parseRequest unicodeLower conn = .done (.error .eof) →
        s.serveRequest unicodeLower (conn :: later) = { written := [], ending := .closed }) ∧
      (∀ e, e ≠ ParseError.eof → parseRequest unicodeLower conn = .done (.error e) →
        s.serveRequest unicodeLower (conn :: later) =
          { written := [badRequest], ending := .closed }) :=
  ⟨parseRequest_eof_iff unicodeLower conn,
    serveRequest_clean_close unicodeLower s conn later,
    fun e he h => serveRequest_malformed unicodeLower s conn later e he h⟩

/-- Witness for C5: a partial request line followed by io.EOF is a clean close. -/
theorem clean_close_iff_eof_before_terminator_witness :
    (byte '\n' ∉ bytes "GET /" ∧ ReadErr.eof = ReadErr.eof) ∧
      parseRequest id { data := bytes "GET /", ending := .eof } = .done (.error .eof) :=
  ⟨by decide,
    (clean_close_iff_eof_before_terminator id (NewServer id [] [] [])
      { data := bytes "GET /", ending := .eof } []).1.mpr (by decide)⟩

/-- Claim C6, refuted on the code: RegisterEndpoint does not escape the
literal text of the template, so the '.' of the template "/a.b/" matches any
character: the route matches the URI "/axb/" and Match returns its handler. -/
theorem literal_dot_matches_any_character (gzip : Bytes → Bytes) (addr tmpDir enc : Bytes)
    (h : Handler) :
    ∃ s rt req', (NewServer gzip addr tmpDir enc).RegisterEndpoint regexpCompile (bytes "GET")
          (bytes "/a.b/") h = some s ∧
        s.Router.routes = [rt] ∧
        rt.pattern.FindStringSubmatch (bytes "/axb/") = some [bytes "/axb/"] ∧
        s.Router.Match (bareRequest (bytes "GET") (bytes "/axb/")) = .done (h, req') :=
  ⟨_, _, _, rfl, rfl, rfl, rfl⟩

/-- Claim C7, refuted on the code: Match also stores the whole matched URI
under the empty name, names[0] of SubexpNames. After routing "/echo/abc/"
the params hold the keys "" and "msg". -/
theorem Match_adds_empty_key (gzip : Bytes → Bytes) (fs : FileSystem) (addr tmpDir : Bytes) :
    ∃ s h req', mainServer regexpCompile gzip fs addr tmpDir = some s ∧
      s.Router.Match (bareRequest (bytes "GET") (bytes "/echo/abc/")) = .done (h, req') ∧
      req'.Params = some [([], bytes "/echo/abc/"), (bytes "msg", bytes "abc")] ∧
      req'.Params.keys = [bytes "", bytes "msg"] :=
  ⟨_, _, _, rfl, rfl, rfl, rfl⟩

/-- Claim C8: a sequence of RegisterEndpoint calls appends one compiled route
per call, in call order, to the routes already there; for a request with an
initialised Params map, Match returns the handler of the earliest route that
accepts the request (equal method, pattern matching the URI), or the
fallback handler when none does; a route registered after another with the
same method and pattern is never the one chosen. -/
theorem Match_returns_earliest_registered_route (compile : Bytes → Option Regexp)
    (s s' : Server) (eps : List (Bytes × Bytes × Handler)) (req : Request)
    (hreg : s.registerAll compile eps = some s') (hp : req.Params ≠ none) :
    (∃ added : List route, s'.Router.routes = s.Router.routes ++ added ∧
      List.Forall₂ (fun rt e => rt.method = e.1 ∧ rt.handler = e.2.2 ∧
        compile (routePattern e.2.1) = some rt.pattern) added eps) ∧
    ((∃ pre rt post req', s'.Router.routes = pre ++ rt :: post ∧ (∀ r ∈ pre, ¬ r.accepts req) ∧
        rt.accepts req ∧ s'.Router.Match req = .done (rt.handler, req')) ∨
      ((∀ r ∈ s'.Router.routes, ¬ r.accepts req) ∧
        s'.Router.Match req = .done (s'.Router.notFound, req))) ∧
    (∀ pre rt post, s'.Router.routes = pre ++ rt :: post →
      (∃ r ∈ pre, r.method = rt.method ∧ r.pattern = rt.pattern) → rt.accepts req →
      ∃ pre1 r1 post1 req', pre = pre1 ++ r1 :: post1 ∧ (∀ r ∈ pre1, ¬ r.accepts req) ∧
        r1.accepts req ∧ s'.Router.Match req = .done (r1.handler, req')) := by
  obtain ⟨added, hroutes, hall, _⟩ := registerAll_routes compile eps s s' hreg
  have hspec := matchRoutes_spec s'.Router.notFound req hp s'.Router.routes
  refine ⟨⟨added, hroutes, hall⟩, hspec, ?_⟩
  intro pre rt post hsplit ⟨r, hr, hrm, hrp⟩ hacc
  have hracc : r.accepts req := by
    obtain ⟨h1, h2⟩ := hacc
    exact ⟨by rw [hrm]; exact h1, by rw [hrp]; exact h2⟩
  rcases hspec with ⟨P, R, Q, req', hPQ, hP, hR, hres⟩ | ⟨hnone, _⟩
  · rw [hsplit] at hPQ
    rcases List.append_eq_append_iff.mp hPQ with ⟨a, ha, _⟩ | ⟨c, hc, hb⟩
    · exact absurd hracc (hP r (by rw [ha]; exact List.mem_append_left _ hr))
    · cases c with
      | nil =>
        simp at hc
        subst hc
        exact absurd hracc (hP r hr)
      | cons x xs =>
        simp at hb
        obtain ⟨hx, _⟩ := hb
        subst hx
        exact ⟨P, R, xs, req', hc, hP, hR, hres⟩
  · exact absurd hracc (hnone r (by rw [hsplit]; exact List.mem_append_left _ hr))

/-- Witness for C8: the endpoint GET "/" registered twice on a new server. -/
theorem Match_returns_earliest_registered_route_witness :
    (∃ s', (NewServer id [] [] []).registerAll regexpCompile twiceRoot = some s' ∧
      (bareRequest (bytes "GET") (bytes "/")).Params ≠ none ∧
      ∃ added : List route, s'.Router.routes = (NewServer id [] [] []).Router.routes ++ added ∧
        List.Forall₂ (fun rt e => rt.method = e.1 ∧ rt.handler = e.2.2 ∧
          regexpCompile (routePattern e.2.1) = some rt.pattern) added twiceRoot) :=
  ⟨_, rfl, by decide,
    (Match_returns_earliest_registered_route regexpCompile (NewServer id [] [] []) _ twiceRoot
      (bareRequest (bytes "GET") (bytes "/")) rfl (by decide)).1⟩

/-- Claim C9: Match returns a handler for every route list and every request
with an initialised Params map (parseRequest always initialises it). When no
route accepts the request, the result is the fallback handler and the request
is unchanged, Params included; the fallback handler of NewRouter, which
registration never replaces, answers with status 404, reason "Not Found" and
an empty body. Every DELETE request against the routes of main.go is such a
case, whatever regexp.Compile makes of the five templates. -/
theorem Match_total_with_not_found_fallback (r : Router) (req : Request) :
    (req.Params ≠ none → ∃ h req', r.Match req = .done (h, req')) ∧
    ((∀ rt ∈ r.routes, ¬ rt.accepts req) → r.Match req = .done (r.notFound, req)) ∧
    ((NewRouter.notFound req).StatusCode = 404 ∧
      (NewRouter.notFound req).StatusMsg = bytes "Not Found" ∧
      (NewRouter.notFound req).Body = []) ∧
    (∀ compile gzip addr tmpDir enc eps s',
      (NewServer gzip addr tmpDir enc).registerAll compile eps = some s' →
      s'.Router.notFound = NewRouter.notFound) ∧
    (∀ compile gzip fs addr tmpDir s, mainServer compile gzip fs addr tmpDir = some s →
      req.Method = bytes "DELETE" → s.Router.Match req = .done (NewRouter.notFound, req)) := by
  have hmiss : (∀ rt ∈ r.routes, ¬ rt.accepts req) → r.Match req = .done (r.notFound, req) := by
    intro hnone
    unfold Router.Match
    generalize r.routes = routes at hnone
    induction routes with
    | nil => simp [matchRoutes]
    | cons rt more ih =>
      have hrt : ¬ rt.accepts req := hnone rt (List.mem_cons_self _ _)
      have hmore := ih (fun x hx => hnone x (List.mem_cons_of_mem _ hx))
      by_cases hm : req.Method = rt.method
      · have : rt.pattern.FindStringSubmatch req.URI = none := by
          by_contra hc
          exact hrt ⟨hm, hc⟩
        simp [matchRoutes, hm, this]
        simpa [hm] using hmore
      · simp [matchRoutes, hm, hmore]
  refine ⟨?_, hmiss, ⟨rfl, rfl, rfl⟩, ?_, ?_⟩
  · intro hp
    rcases matchRoutes_spec r.notFound req hp r.routes with ⟨_, rt, _, req', _, _, _, hres⟩ | ⟨_, hres⟩
    · exact ⟨rt.handler, req', hres⟩
    · exact ⟨r.notFound, req, hres⟩
  · intro compile gzip addr tmpDir enc eps s' hreg
    obtain ⟨_, _, _, hnf⟩ := registerAll_routes compile eps _ s' hreg
    exact hnf
  · intro compile gzip fs addr tmpDir s hs hdel
    obtain ⟨added, hroutes, hall, hnf⟩ := registerAll_routes compile _ _ s hs
    have hG : bytes "DELETE" ≠ bytes "GET" := by decide
    have hP : bytes "DELETE" ≠ bytes "POST" := by decide
    have hmethods : ∀ rt ∈ added, rt.method = bytes "GET" ∨ rt.method = bytes "POST" := by
      intro rt hrt
      obtain ⟨e, he, hrel⟩ := forall₂_mem_left hall hrt
      simp only [mainEndpoints, List.mem_cons, List.mem_singleton, List.not_mem_nil, or_false] at he
      rcases he with rfl | rfl | rfl | rfl | rfl
      · exact Or.inl hrel.1
      · exact Or.inl hrel.1
      · exact Or.inl hrel.1
      · exact Or.inl hrel.1
      · exact Or.inr hrel.1
    have hroutes' : s.Router.routes = added := by simpa [NewServer, NewRouter] using hroutes
    have hnf' : s.Router.notFound = NewRouter.notFound := hnf
    unfold Router.Match
    rw [hroutes', hnf']
    clear hroutes hroutes' hall hnf hnf' hs hmiss
    induction added with
    | nil => simp [matchRoutes]
    | cons rt more ih =>
      have hne : req.Method ≠ rt.method := by
        rw [hdel]
        rcases hmethods rt (List.mem_cons_self _ _) with h | h <;> rw [h]
        · exact hG
        · exact hP
      simp only [matchRoutes, ne_eq, hne, not_false_eq_true, if_true]
      exact ih (fun x hx => hmethods x (List.mem_cons_of_mem _ hx))

/-- Witness for C9: DELETE /nope/ on a router without routes and on the
routes of main.go. -/
theorem Match_total_with_not_found_fallback_witness :
    (bareRequest (bytes "DELETE") (bytes "/nope/")).Params ≠ none ∧
      (∃ h req', NewRouter.Match (bareRequest (bytes "DELETE") (bytes "/nope/")) = .done (h, req')) ∧
      ∃ s, mainServer regexpCompile id noFiles [] [] = some s ∧
        s.Router.Match (bareRequest (bytes "DELETE") (bytes "/nope/")) =
          .done (NewRouter.notFound, bareRequest (bytes "DELETE") (bytes "/nope/")) :=
  ⟨by decide,
    (Match_total_with_not_found_fallback NewRouter
      (bareRequest (bytes "DELETE") (bytes "/nope/"))).1 (by decide),
    _, mainServer_eq id noFiles [] [],
    (Match_total_with_not_found_fallback NewRouter
      (bareRequest (bytes "DELETE") (bytes "/nope/"))).2.2.2.2 regexpCompile id noFiles [] [] _
      (mainServer_eq id noFiles [] []) rfl⟩

/-- Claim C10 as stated fails for the empty string, which consists of word
characters only: GET /echo// is matched by no route of main.go, the pattern
asks for one or more word characters, and the fallback handler answers 404. -/
theorem echo_empty_msg_is_not_found :
    ∃ s, mainServer regexpCompile id noFiles [] [] = some s ∧
      s.Router.Match (bareRequest (bytes "GET") (bytes "/echo/" ++ [] ++ bytes "/")) =
        .done (NewRouter.notFound, bareRequest (bytes "GET") (bytes "/echo/" ++ [] ++ bytes "/")) ∧
      (NewRouter.notFound (bareRequest (bytes "GET") (bytes "/echo/" ++ [] ++ bytes "/"))).StatusCode
        = 404 :=
  ⟨_, rfl, rfl, rfl⟩

/-- Claim C10, amended: with the routes of main.go, for every non-empty
string msg of word characters, a GET request with URI /echo/msg/ and an
initialised Params map is resolved by Match to the echo handler, and that
handler returns status 200 "OK" with body msg and contentLength len(msg). -/
theorem echo_returns_msg (gzip : Bytes → Bytes) (fs : FileSystem) (addr tmpDir : Bytes)
    (msg : Bytes) (req : Request) (hne : msg ≠ []) (hw : ∀ b ∈ msg, isWordByte b = true)
    (hm : req.Method = bytes "GET") (hu : req.URI = bytes "/echo/" ++ msg ++ bytes "/")
    (hp : req.Params ≠ none) :
    ∃ s req', mainServer regexpCompile gzip fs addr tmpDir = some s ∧
      s.Router.Match req = .done (echoHandler, req') ∧
      echoHandler req' =
        { StatusCode := 200
          StatusMsg := bytes "OK"
          ContentType := bytes "text/plain"
          ContentLength := (msg.length : Int)
          Headers := some []
          Body := msg } := by
  obtain ⟨ps, hps⟩ := Option.ne_none_iff_exists'.mp hp
  have hroot : (Regexp.ofNodes ([Node.beginText] ++ (bytes "/").map Node.lit ++
      [Node.endText])).FindStringSubmatch req.URI = none := by
    have e1 : bytes "/echo/" = [47, 101, 99, 104, 111, 47] := by decide
    have e2 : bytes "/" = [47] := by decide
    rw [hu, e1, e2]
    simp [Regexp.FindStringSubmatch, Regexp.ofNodes, matchNodes]
  have hecho : (Regexp.ofNodes ([Node.beginText] ++ (bytes "/echo/").map Node.lit ++
      [Node.wordGroup (bytes "msg")] ++ (bytes "/").map Node.lit ++
      [Node.endText])).FindStringSubmatch req.URI =
      some [req.URI.take (msg.length + 7), msg] := by
    rw [hu]
    simp only [Regexp.FindStringSubmatch, Regexp.ofNodes, echo_pattern_match msg hne hw]
    rfl
  refine ⟨_, { req with Params := some ((ps.insert [] (req.URI.take (msg.length + 7))).insert
    (bytes "msg") msg) }, mainServer_eq gzip fs addr tmpDir, ?_, ?_⟩
  · show matchRoutes NewRouter.notFound req (mainRoutes fs tmpDir) = _
    unfold mainRoutes
    rw [matchRoutes_skip _ _ _ _ hroot]
    exact matchRoutes_hit _ _ _ _ _ _ hm hecho (by rw [hps]; rfl)
  · simp [echoHandler, GoMap.get, GoMap.lookup, Entries.lookup_insert, TextResponse, NewResponse,
      statusText]

/-- Witness for C10: the message "abc". -/
theorem echo_returns_msg_witness :
    bytes "abc" ≠ [] ∧ (∀ b ∈ bytes "abc", isWordByte b = true) ∧
      ∃ s req', mainServer regexpCompile id noFiles [] [] = some s ∧
        s.Router.Match (bareRequest (bytes "GET") (bytes "/echo/" ++ bytes "abc" ++ bytes "/")) =
          .done (echoHandler, req') ∧
        echoHandler req' =
          { StatusCode := 200
            StatusMsg := bytes "OK"
            ContentType := bytes "text/plain"
            ContentLength := ((bytes "abc").length : Int)
            Headers := some []
            Body := bytes "abc" } :=
  ⟨by decide, by decide,
    echo_returns_msg id noFiles [] [] (bytes "abc")
      (bareRequest (bytes "GET") (bytes "/echo/" ++ bytes "abc" ++ bytes "/"))
      (by decide) (by decide) rfl rfl (by decide)⟩
/-- Claim C11: when the request line gives the tokens method, uri, version and
the request parses, the stored URI is uri with "/" appended if uri neither
ends in '/' nor contains '?', and is uri itself otherwise. So "GET /foo" and
"GET /foo/" followed by the same bytes parse to the same result and the loop
body treats them alike, while "/foo?x=1" is stored as it is. -/
theorem stored_URI_is_normalised (u : Bytes → Bytes) (conn : Conn)
    (requestLine rest method uri version : Bytes) (req : Request)
    (hread : readString (byte '\n') conn.data = some (requestLine, rest))
    (hsplit : Split (byte ' ') (TrimSpace requestLine) = [method, uri, version])
    (hok : parseRequest u conn = .done (.ok req)) :
    req.URI = (if uri.getLast? = some (byte '/') ∨ byte '?' ∈ uri then uri
      else uri ++ [byte '/']) ∧
    (∀ tail e, parseRequest u { data := bytes "GET /foo HTTP/1.1\r\n" ++ tail, ending := e } =
      parseRequest u { data := bytes "GET /foo/ HTTP/1.1\r\n" ++ tail, ending := e }) ∧
    (∀ (s : Server) tail e,
      s.iteration u { data := bytes "GET /foo HTTP/1.1\r\n" ++ tail, ending := e } =
        s.iteration u { data := bytes "GET /foo/ HTTP/1.1\r\n" ++ tail, ending := e }) ∧
    parseRequest u { data := bytes "GET /foo?x=1 HTTP/1.1\r\n\r\n", ending := .eof } =
      .done (.ok (bareRequest (bytes "GET") (bytes "/foo?x=1"))) := by
  refine ⟨?_, parse_foo_eq u, ?_, rfl⟩
  · rw [parseRequest_three_tokens u conn requestLine rest method uri version hread hsplit] at hok
    rw [← normalised_iff]
    split at hok
    · cases hok
    · cases hok
    · split at hok
      · cases hok
      · cases hok
      · simp only [Exec.done.injEq, Except.ok.injEq] at hok
        rw [← hok]
  · intro s tail e
    simp only [Server.iteration, parse_foo_eq u tail e]

/-- Witness for C11: "GET /foo" is stored as "/foo/". -/
theorem stored_URI_is_normalised_witness :
    readString (byte '\n') (bytes "GET /foo HTTP/1.1\r\n\r\n") =
        some (bytes "GET /foo HTTP/1.1\r\n", bytes "\r\n") ∧
      Split (byte ' ') (TrimSpace (bytes "GET /foo HTTP/1.1\r\n")) =
        [bytes "GET", bytes "/foo", bytes "HTTP/1.1"] ∧
      parseRequest id { data := bytes "GET /foo HTTP/1.1\r\n\r\n", ending := .eof } =
        .done (.ok (bareRequest (bytes "GET") (bytes "/foo/"))) ∧
      (bareRequest (bytes "GET") (bytes "/foo/")).URI =
        (if (bytes "/foo").getLast? = some (byte '/') ∨ byte '?' ∈ bytes "/foo" then bytes "/foo"
          else bytes "/foo" ++ [byte '/']) :=
  ⟨by decide, by decide, by decide,
    (stored_URI_is_normalised id { data := bytes "GET /foo HTTP/1.1\r\n\r\n", ending := .eof }
      (bytes "GET /foo HTTP/1.1\r\n") (bytes "\r\n") (bytes "GET") (bytes "/foo") (bytes "HTTP/1.1")
      (bareRequest (bytes "GET") (bytes "/foo/")) (by decide) (by decide) (by decide)).1⟩

/-- Claim C12: for a terminated request line, parseRequest fails at the
request line exactly when the trimmed line split at single spaces does not
have three tokens, and the failure is then the invalid-request-line error;
with three tokens they become method, URI (normalised) and version of the
parsed request. Two consecutive spaces give an empty fourth token and the
line is rejected. -/
theorem request_line_needs_three_tokens (u : Bytes → Bytes) (conn : Conn)
    (requestLine rest : Bytes)
    (hread : readString (byte '\n') conn.data = some (requestLine, rest)) :
    ((Split (byte ' ') (TrimSpace requestLine)).length = 3 ↔
      ¬ ∃ e, e.atRequestLine = true ∧ parseRequest u conn = .done (.error e)) ∧
    ((Split (byte ' ') (TrimSpace requestLine)).length ≠ 3 →
      parseRequest u conn = .done (.error (.invalidRequestLine requestLine))) ∧
    (∀ req, parseRequest u conn = .done (.ok req) →
      ∃ uri, Split (byte ' ') (TrimSpace requestLine) = [req.Method, uri, req.Version] ∧
        req.URI = (if uri.getLast? = some (byte '/') ∨ byte '?' ∈ uri then uri
          else uri ++ [byte '/'])) ∧
    parseRequest u { data := bytes "GET  / HTTP/1.1\r\n\r\n", ending := .eof } =
      .done (.error (.invalidRequestLine (bytes "GET  / HTTP/1.1\r\n"))) := by
  have hthree : ∀ m uri v, Split (byte ' ') (TrimSpace requestLine) = [m, uri, v] →
      ∀ e, e.atRequestLine = true → parseRequest u conn ≠ .done (.error e) := by
    intro m uri v hs e he hp
    rw [parseRequest_three_tokens u conn requestLine rest m uri v hread hs] at hp
    split at hp
    · cases hp
    · rename_i e' hh
      simp only [Exec.done.injEq, Except.error.injEq] at hp
      subst hp
      rw [readHeaders_not_atRequestLine _ _ _ _ _ _ hh] at he
      cases he
    · split at hp
      · cases hp
      · rename_i e' hb
        simp only [Exec.done.injEq, Except.error.injEq] at hp
        subst hp
        rw [readBody_not_atRequestLine _ _ _ hb] at he
        cases he
      · cases hp
  refine ⟨⟨?_, ?_⟩, parseRequest_other_tokens u conn requestLine rest hread, ?_, rfl⟩
  · intro hlen ⟨e, he, hp⟩
    obtain ⟨m, uri, v, hs⟩ := List.length_eq_three.mp hlen
    exact hthree m uri v hs e he hp
  · intro hno
    by_contra hlen
    exact hno ⟨.invalidRequestLine requestLine, rfl,
      parseRequest_other_tokens u conn requestLine rest hread hlen⟩
  · intro req hok
    by_cases hlen : (Split (byte ' ') (TrimSpace requestLine)).length = 3
    · obtain ⟨m, uri, v, hs⟩ := List.length_eq_three.mp hlen
      have hp := hok
      rw [parseRequest_three_tokens u conn requestLine rest m uri v hread hs] at hp
      refine ⟨uri, ?_⟩
      rw [hs, ← normalised_iff]
      split at hp
      · cases hp
      · cases hp
      · split at hp
        · cases hp
        · cases hp
        · simp only [Exec.done.injEq, Except.ok.injEq] at hp
          rw [← hp]
          exact ⟨rfl, rfl⟩
    · rw [parseRequest_other_tokens u conn requestLine rest hread hlen] at hok
      cases hok

/-- Witness for C12: the request line "GET / HTTP/1.1" has three tokens. -/
theorem request_line_needs_three_tokens_witness :
    readString (byte '\n') (bytes "GET / HTTP/1.1\r\n\r\n") =
        some (bytes "GET / HTTP/1.1\r\n", bytes "\r\n") ∧
      ((Split (byte ' ') (TrimSpace (bytes "GET / HTTP/1.1\r\n"))).length = 3 ↔
        ¬ ∃ e, e.atRequestLine = true ∧
          parseRequest id { data := bytes "GET / HTTP/1.1\r\n\r\n", ending := .eof } =
            .done (.error e)) :=
  ⟨by decide,
    (request_line_needs_three_tokens id { data := bytes "GET / HTTP/1.1\r\n\r\n", ending := .eof }
      (bytes "GET / HTTP/1.1\r\n") (bytes "\r\n") (by decide)).1⟩

/-- Claim C13, refuted on the code: the body is allocated with
make([]byte, contentLen) before a single byte of it is read. For
Content-Length: 9223372036854775807, the largest int, make panics (makeslice:
len out of range) although the stream just ends; no error is returned. -/
theorem huge_content_length_panics (unicodeLower : Bytes → Bytes) :
    Atoi (bytes "9223372036854775807") = some (2 ^ 63 - 1) ∧
      parseRequest unicodeLower
          { data := bytes "POST /files/a HTTP/1.1\r\nContent-Length: 9223372036854775807\r\n\r\n",
            ending := .eof } = .panic :=
  ⟨by decide, rfl⟩

/-- Claim C14, refuted on the code: a handler that builds its response with a
struct literal leaves the Headers map nil; for such a response with the body
"hi" and a request with Accept-Encoding: gzip, ApplyEncoding finds the gzip
encoder, encodes, and panics on the write of the Content-Encoding header.
The connection loop writes nothing. -/
theorem ApplyEncoding_panics_on_nil_headers (unicodeLower gzip : Bytes → Bytes) :
    (NewEncodeManager gzip).ApplyEncoding
        (requestWith (bytes "GET") (bytes "/") [(bytes "accept-encoding", bytes "gzip")])
        (literalHandler (requestWith (bytes "GET") (bytes "/")
          [(bytes "accept-encoding", bytes "gzip")])) = .panic ∧
      ∃ s, literalServer gzip = some s ∧
        s.serveRequest unicodeLower
            [{ data := bytes "GET / HTTP/1.1\r\nAccept-Encoding: gzip\r\n\r\n", ending := .eof }] =
          { written := [], ending := .panicked } :=
  ⟨rfl, _, rfl, rfl⟩

/-- Claim C15: NewResponse, TextResponse and FileResponse build responses
with contentLength = len(body); the built-in 400 and 404 responses have it;
ApplyEncoding keeps it in every outcome in which it returns (no-op,
successful encoding, encoder failure). So every response the connection loop
hands to writeResponse has it when the handlers return responses that have
it, and this is the case for the server of main.go on every input. -/
theorem contentLength_is_body_length :
    (∀ code msg ct body, (NewResponse code msg ct body).lengthOk) ∧
    (∀ code body, (TextResponse code body).lengthOk) ∧
    (∀ code data, (FileResponse code data).lengthOk) ∧
    badRequest.lengthOk ∧
    (∀ q, (NewRouter.notFound q).lengthOk) ∧
    (∀ (manager : EncodeManager) req res res' err, res.lengthOk →
      manager.ApplyEncoding req res = .done (res', err) → res'.lengthOk) ∧
    (∀ u (s : Server) conns, (∀ rt ∈ s.Router.routes, ∀ q, (rt.handler q).lengthOk) →
      (∀ q, (s.Router.notFound q).lengthOk) →
      ∀ r ∈ (s.serveRequest u conns).written, r.lengthOk) ∧
    (∀ compile u gzip fs addr tmpDir s conns, mainServer compile gzip fs addr tmpDir = some s →
      ∀ r ∈ (s.serveRequest u conns).written, r.lengthOk) := by
  refine ⟨fun _ _ _ _ => rfl, fun _ _ => rfl, fun _ _ => rfl, rfl, fun _ => rfl,
    fun manager req res res' err => ApplyEncoding_lengthOk manager req res res' err,
    fun u s conns => serveRequest_lengthOk u s conns, ?_⟩
  intro compile u gzip fs addr tmpDir s conns hs
  obtain ⟨added, hroutes, hall, hnf⟩ := registerAll_routes compile _ _ s hs
  have hroutes' : s.Router.routes = added := by simpa [NewServer, NewRouter] using hroutes
  apply serveRequest_lengthOk
  · intro rt hrt q
    rw [hroutes'] at hrt
    obtain ⟨e, he, hrel⟩ := forall₂_mem_left hall hrt
    rw [hrel.2.1]
    exact mainEndpoints_lengthOk fs tmpDir e he q
  · intro q
    rw [hnf]
    rfl

/-- Witness for C15: the server of main.go on a connection with two requests. -/
theorem contentLength_is_body_length_witness :
    ∃ s, mainServer regexpCompile id noFiles [] [] = some s ∧
      ∀ r ∈ (s.serveRequest id
          [{ data := bytes "GET /echo/abc HTTP/1.1\r\nAccept-Encoding: gzip\r\n\r\n", ending := .eof },
           { data := bytes "DELETE /nope HTTP/1.1\r\n\r\n", ending := .eof }]).written,
        r.lengthOk :=
  ⟨_, mainServer_eq id noFiles [] [],
    contentLength_is_body_length.2.2.2.2.2.2.2 regexpCompile id id noFiles [] [] _ _
      (mainServer_eq id noFiles [] [])⟩

/-- Claim C16: String is the status line, then the Content-Type line exactly
when contentType is not empty, then the Content-Length line, then one
"key: value" line for every custom header (each entry of the map once, in
the order of the range loop), then the empty line, then the body. For
TextResponse(200, "hi") this is the text below, which contains
"Content-Length: 2" and ends with the empty line followed by "hi". -/
theorem String_is_the_wire_format (order : RangeOrder) (r : Response) :
    r.String order =
      (bytes "HTTP/1.1 " ++ formatInt r.StatusCode ++ bytes " " ++ r.StatusMsg ++ bytes "\r\n") ++
      (if r.ContentType = [] then [] else bytes "Content-Type: " ++ r.ContentType ++ bytes "\r\n") ++
      (bytes "Content-Length: " ++ formatInt r.ContentLength ++ bytes "\r\n") ++
      (r.Headers.range order).flatMap (fun kv => kv.1 ++ bytes ": " ++ kv.2 ++ bytes "\r\n") ++
      bytes "\r\n" ++ r.Body ∧
    (∀ es, r.Headers = some es → (r.Headers.range order).Perm es) ∧
    (r.Headers = none → r.Headers.range order = []) ∧
    (TextResponse 200 (bytes "hi")).String order =
      bytes "HTTP/1.1 200 OK\r\nContent-Type: text/plain\r\nContent-Length: 2\r\n\r\nhi" ∧
    List.IsInfix (bytes "Content-Length: 2") ((TextResponse 200 (bytes "hi")).String order) ∧
    List.IsSuffix (bytes "\r\n\r\nhi") ((TextResponse 200 (bytes "hi")).String order) := by
  have hshape : ∀ r : Response, r.String order =
      (bytes "HTTP/1.1 " ++ formatInt r.StatusCode ++ bytes " " ++ r.StatusMsg ++ bytes "\r\n") ++
      (if r.ContentType = [] then [] else bytes "Content-Type: " ++ r.ContentType ++ bytes "\r\n") ++
      (bytes "Content-Length: " ++ formatInt r.ContentLength ++ bytes "\r\n") ++
      (r.Headers.range order).flatMap (fun kv => kv.1 ++ bytes ": " ++ kv.2 ++ bytes "\r\n") ++
      bytes "\r\n" ++ r.Body := by
    intro r
    unfold Response.String
    simp only [foldl_append_lines, List.nil_append]
    by_cases hct : r.ContentType = [] <;> simp [hct, List.append_assoc]
  have htext : (TextResponse 200 (bytes "hi")).String order =
      bytes "HTTP/1.1 200 OK\r\nContent-Type: text/plain\r\nContent-Length: 2\r\n\r\nhi" := by
    have hnil : order.visit [] = [] := List.Perm.eq_nil (order.perm [])
    rw [hshape]
    simp only [TextResponse, NewResponse, GoMap.range, hnil, List.flatMap_nil]
    decide
  refine ⟨hshape r, ?_, ?_, htext, ?_, ?_⟩
  · intro es hes
    rw [hes]
    exact order.perm es
  · intro hnone
    rw [hnone]
    rfl
  · rw [htext]
    exact ⟨bytes "HTTP/1.1 200 OK\r\nContent-Type: text/plain\r\n", bytes "\r\n\r\nhi", by decide⟩
  · rw [htext]
    exact ⟨bytes "HTTP/1.1 200 OK\r\nContent-Type: text/plain\r\nContent-Length: 2", by decide⟩

/-- Witness for C16: the built-in 400 response, whose Headers map is nil. -/
theorem String_is_the_wire_format_witness :
    (badRequest.Headers = none → badRequest.Headers.range storedOrder = []) ∧
      badRequest.String storedOrder = bytes "HTTP/1.1 400 Bad Request\r\nContent-Length: 0\r\n\r\n" :=
  ⟨(String_is_the_wire_format storedOrder badRequest).2.2.1, by decide⟩

/-- Claim C17: GetEncoding returns none exactly when the header is empty or
no trimmed comma-separated candidate is a registered name; otherwise it
returns the encoder registered under the first trimmed candidate, in the
order of the header, that is a registered name. RegisterEncoder registers
under the given name, and "br, gzip" selects the pre-registered gzip encoder. -/
theorem GetEncoding_first_registered_candidate (manager : EncodeManager) (header : Bytes) :
    (manager.GetEncoding header = none ↔
      header = [] ∨
        ∀ c ∈ Split (byte ',') header, lookupEncoder manager.encoders (TrimSpace c) = none) ∧
    (∀ encoder, manager.GetEncoding header = some encoder ↔
      header ≠ [] ∧ ∃ pre c post, Split (byte ',') header = pre ++ c :: post ∧
        (∀ x ∈ pre, lookupEncoder manager.encoders (TrimSpace x) = none) ∧
        lookupEncoder manager.encoders (TrimSpace c) = some encoder) ∧
    (∀ name encoder,
      lookupEncoder (manager.RegisterEncoder name encoder).encoders name = some encoder) ∧
    (∀ gzip, (NewEncodeManager gzip).GetEncoding (bytes "br, gzip") = some (GzipEncoder gzip)) := by
  refine ⟨?_, ?_, ?_, fun gzip => rfl⟩
  · unfold EncodeManager.GetEncoding
    by_cases hh : header = []
    · simp [hh]
    · simp only [hh, if_false, false_or]
      exact firstEncoder_eq_none_iff _ _
  · intro encoder
    unfold EncodeManager.GetEncoding
    by_cases hh : header = []
    · simp [hh]
    · simp only [hh, if_false, ne_eq, not_false_eq_true, true_and]
      constructor
      · exact firstEncoder_eq_some _ _ _
      · rintro ⟨pre, c, post, hsplit, hpre, hc⟩
        rw [hsplit]
        clear hsplit
        induction pre with
        | nil => simp [firstEncoder, hc]
        | cons x xs ih =>
          have hx := hpre x (List.mem_cons_self _ _)
          simp only [List.cons_append, firstEncoder, hx]
          exact ih (fun y hy => hpre y (List.mem_cons_of_mem _ hy))
  · intro name encoder
    unfold EncodeManager.RegisterEncoder
    simp only
    generalize manager.encoders = es
    induction es with
    | nil => simp [insertEncoder, lookupEncoder]
    | cons e es ih =>
      obtain ⟨k, v⟩ := e
      by_cases hk : k = name <;> simp [insertEncoder, lookupEncoder, hk, ih]

/-- Claim C18: when the response body is empty, or the request has no
accept-encoding header, or no candidate of the header is a registered
encoder name, ApplyEncoding returns no error and the response it leaves is
the response it was given, in every field. -/
theorem ApplyEncoding_leaves_response_unchanged (manager : EncodeManager) (req : Request)
    (res : Response)
    (h : res.Body = [] ∨ req.Headers.lookup acceptEncoding = none ∨
      ∀ c ∈ Split (byte ',') (req.Headers.get acceptEncoding),
        lookupEncoder manager.encoders (TrimSpace c) = none) :
    manager.ApplyEncoding req res = .done (res, none) := by
  apply ApplyEncoding_no_encoder
  rcases h with h | h | h
  · exact Or.inl h
  · right
    have : req.Headers.get acceptEncoding = [] := by simp [GoMap.get, h]
    simp [EncodeManager.GetEncoding, this]
  · right
    unfold EncodeManager.GetEncoding
    split
    · rfl
    · exact (firstEncoder_eq_none_iff _ _).mpr h

/-- Witness for C18: a request without accept-encoding header. -/
theorem ApplyEncoding_leaves_response_unchanged_witness :
    (bareRequest (bytes "GET") (bytes "/")).Headers.lookup acceptEncoding = none ∧
      (NewEncodeManager id).ApplyEncoding (bareRequest (bytes "GET") (bytes "/"))
          (TextResponse 200 (bytes "hi")) = .done (TextResponse 200 (bytes "hi"), none) :=
  ⟨by decide,
    ApplyEncoding_leaves_response_unchanged (NewEncodeManager id)
      (bareRequest (bytes "GET") (bytes "/")) (TextResponse 200 (bytes "hi"))
      (Or.inr (Or.inl (by decide)))⟩

/-- Claim C19, refuted on the code: the encoder "br" fails on the body "hi"
and ApplyEncoding returns its error with the response unchanged, but the
response was built with a struct literal and the request asks for
connection: close, so the loop panics on the write of the Connection header
into the nil Headers map and writes nothing. -/
theorem encoder_failure_then_nil_headers_panic (unicodeLower gzip : Bytes → Bytes) :
    ∃ s, failingEncoderServer gzip = some s ∧
      s.EncodingManager.ApplyEncoding
          (requestWith (bytes "GET") (bytes "/")
            [(bytes "accept-encoding", bytes "br"), (bytes "connection", bytes "close")])
          (literalHandler (requestWith (bytes "GET") (bytes "/")
            [(bytes "accept-encoding", bytes "br"), (bytes "connection", bytes "close")])) =
        .done (literalHandler (requestWith (bytes "GET") (bytes "/")
            [(bytes "accept-encoding", bytes "br"), (bytes "connection", bytes "close")]),
          some (bytes "encode failed")) ∧
      s.serveRequest unicodeLower
          [{ data := bytes "GET / HTTP/1.1\r\nAccept-Encoding: br\r\nConnection: close\r\n\r\n",
             ending := .eof }] =
        { written := [], ending := .panicked } :=
  ⟨_, rfl, rfl, rfl⟩

end BarebonesHttp
